import Mathlib

/-!
Verification of the declarative trade-data mapping engine (`backend/mapping_program.py`)
and the structural JSON comparator (`backend/json_compare.py`) of the cr2.0 repository.

The Python code is shallowly embedded: Python dictionaries become association lists
(`List (String × _)`), CSV rows become `Record = List (String × String)`, raised
exceptions become `Except String _`, and the catch-all in `_transform_single_trade`
becomes a mapping of errors to `Option.none`.  Python/JSON scalar values are modelled
by `JVal` (comparator side) and `PyVal` (mapper side); floating point numbers are kept
opaque (carried as their cleaned source string) because no verified property depends on
float arithmetic.  String primitives (`split`, `replace`, `strip`, substring tests) are
re-implemented over character lists so that every definition evaluates inside the kernel.
-/

namespace CR2

/-! ## Character-list string primitives (Python `str` operations) -/

/-- Python whitespace characters stripped by `str.strip()`. -/
def pyIsSpace (c : Char) : Bool :=
  c = ' ' || c = '\t' || c = '\n' || c = '\r' || c.val = 11 || c.val = 12

/-- `str.strip()` on a character list. -/
def trimChars (s : List Char) : List Char :=
  ((s.dropWhile pyIsSpace).reverse.dropWhile pyIsSpace).reverse

/-- `str.strip()`. -/
def pyStrip (s : String) : String :=
  (trimChars s.data).asString

/-- Substring test on character lists (`sub in s` for Python strings). -/
def containsChars (pat : List Char) : List Char → Bool
  | [] => pat.isEmpty
  | c :: cs => pat.isPrefixOf (c :: cs) || containsChars pat cs

/-- Python `sub in s` for strings. -/
def strContains (s pat : String) : Bool :=
  containsChars pat.data s.data

/-- Auxiliary worker for `str.replace`: the `Nat` argument counts characters still to
be skipped after a pattern occurrence was consumed (keeps the recursion structural). -/
def replaceAux (pat rep : List Char) : List Char → Nat → List Char
  | [], _ => []
  | _ :: cs, k + 1 => replaceAux pat rep cs k
  | c :: cs, 0 =>
    if pat.isPrefixOf (c :: cs) then rep ++ replaceAux pat rep cs (pat.length - 1)
    else c :: replaceAux pat rep cs 0

/-- Python `s.replace(pat, rep)` for a nonempty pattern (all the patterns replaced by
the mapper – `","`, `" "`, `"\x7bidx\x7d"`, … – are nonempty; for an empty pattern the
string is returned unchanged). -/
def strReplace (s pat rep : String) : String :=
  if pat.data.isEmpty then s else (replaceAux pat.data rep.data s.data 0).asString

/-- Auxiliary worker for `str.split(sep)`, same skip-counter technique:
`acc` is the reversed current chunk. -/
def splitOnAux (sep : List Char) : List Char → Nat → List Char → List (List Char)
  | [], 0, acc => [acc.reverse]
  | [], _ + 1, acc => [acc.reverse]
  | _ :: cs, k + 1, acc => splitOnAux sep cs k acc
  | c :: cs, 0, acc =>
    if sep.isPrefixOf (c :: cs) then acc.reverse :: splitOnAux sep cs (sep.length - 1) []
    else splitOnAux sep cs 0 (c :: acc)

/-- Python `s.split(sep)` for a nonempty separator. -/
def strSplitOn (s sep : String) : List String :=
  if sep.data.isEmpty then [s]
  else (splitOnAux sep.data s.data 0 []).map List.asString

/-- Python `s.rstrip(c)` for a single character. -/
def rstripChar (s : String) (c : Char) : String :=
  ((s.data.reverse.dropWhile (· = c)).reverse).asString

/-- Lexicographic comparison of strings by code point, as Python compares `str`. -/
def charsLt : List Char → List Char → Bool
  | [], [] => false
  | [], _ :: _ => true
  | _ :: _, [] => false
  | a :: as, b :: bs => if a = b then charsLt as bs else decide (a.val < b.val)

/-- Python `a < b` on strings. -/
def strLt (a b : String) : Bool := charsLt a.data b.data

/-- Insert into a sorted list of strings (used to model Python `sorted`). -/
def insertSorted (x : String) : List String → List String
  | [] => [x]
  | y :: ys => if strLt y x then y :: insertSorted x ys else x :: y :: ys

/-- Python `sorted` on a list of strings (a stable insertion sort; for the comparator
only the set of elements matters). -/
def sortStrings (l : List String) : List String := l.foldr insertSorted []

/-- Set-dedup (`set(..)`): keep the first occurrence of each string.  `seen` is the
accumulator of already-emitted strings. -/
def dedupAux : List String → List String → List String
  | [], _ => []
  | x :: xs, seen => if x ∈ seen then dedupAux xs seen else x :: dedupAux xs (x :: seen)

/-- Deduplicate a list of strings, keeping first occurrences. -/
def dedupKeys (l : List String) : List String := dedupAux l []

/-- Parse a decimal digit string (helper for Python `int(...)`). -/
def digitsToNat (l : List Char) : Nat :=
  l.foldl (fun acc c => acc * 10 + (c.toNat - 48)) 0

/-- Python `int(s)`: optional surrounding whitespace, optional sign, nonempty digits.
(Underscore separators of Python numeric literals are not modelled.) -/
def pyIntParse (s : String) : Option Int :=
  let t := trimChars s.data
  let core : Option (Bool × List Char) :=
    match t with
    | '+' :: rest => some (false, rest)
    | '-' :: rest => some (true, rest)
    | rest => some (false, rest)
  match core with
  | some (neg, ds) =>
    if ds.isEmpty || !ds.all Char.isDigit then none
    else some (if neg then -(digitsToNat ds : Int) else (digitsToNat ds : Int))
  | none => none

/-- Syntactic check for Python `float(s)` acceptance (digits with optional point and
exponent, or inf/nan words).  The parsed value itself is kept opaque. -/
def pyFloatSyntax (s : String) : Bool :=
  let t := trimChars s.data
  let t := match t with
    | '+' :: rest => rest
    | '-' :: rest => rest
    | rest => rest
  let lower := t.map Char.toLower
  if lower = "inf".data || lower = "infinity".data || lower = "nan".data then true
  else
    match t.span Char.isDigit with
    | (intPart, rest) =>
      let (fracPart, rest2) :=
        match rest with
        | '.' :: r => (r.takeWhile Char.isDigit, r.dropWhile Char.isDigit)
        | r => ([], r)
      if intPart.isEmpty && fracPart.isEmpty then false
      else
        match rest2 with
        | [] => true
        | 'e' :: r | 'E' :: r =>
          let r := match r with
            | '+' :: rr => rr
            | '-' :: rr => rr
            | rr => rr
          !r.isEmpty && r.all Char.isDigit
        | _ => false

end CR2

namespace CR2

/-! ## JSON value model for the comparator (`backend/json_compare.py`)

`JVal` models the Python scalars a parsed JSON leaf can be (floats omitted, see the
file header).  `Json` models the parsed JSON trees handed to `JSONComparator`. -/

/-- A scalar JSON leaf as a Python runtime value. -/
inductive JVal where
  | null
  | bool (b : Bool)
  | int (n : Int)
  | str (s : String)
  deriving DecidableEq, Repr

/-- A parsed JSON document (Python nests of `dict`, `list` and scalars). -/
inductive Json where
  | scalar (v : JVal)
  | obj (fields : List (String × Json))
  | arr (elems : List Json)

/-- `type(v).__name__` for a scalar. -/
def JVal.typeName : JVal → String
  | .null => "NoneType"
  | .bool _ => "bool"
  | .int _ => "int"
  | .str _ => "str"

/-- Python `str(v)` for a scalar. -/
def JVal.pyStr : JVal → String
  | .null => "None"
  | .bool true => "True"
  | .bool false => "False"
  | .int n => toString n
  | .str s => s

/-- The key built for a `dict` entry in `flatten_json`:
`f"{parent_key}{sep}{key}" if parent_key else key`. -/
def mkObjKey (sep p k : String) : String := if p = "" then k else p ++ sep ++ k

mutual
/-- `JSONComparator.flatten_json` (json_compare.py:19-42): flatten a nested JSON
structure into dot/bracket-notation keys paired with their scalar leaves.  The result
is the item list later turned into a dict. -/
def flatten_json (sep : String) : Json → String → List (String × JVal)
  | .scalar v, parent => [(parent, v)]
  | .obj fs, parent => flattenFields sep fs parent
  | .arr es, parent => flattenElems sep es parent 0

/-- The `dict` branch of `flatten_json`: one block of items per field, in order. -/
def flattenFields (sep : String) : List (String × Json) → String → List (String × JVal)
  | [], _ => []
  | (k, v) :: rest, parent =>
    flatten_json sep v (mkObjKey sep parent k) ++ flattenFields sep rest parent

/-- The `list` branch of `flatten_json`: `f"{parent_key}[{i}]"` keys, `i` counting up. -/
def flattenElems (sep : String) : List Json → String → Nat → List (String × JVal)
  | [], _, _ => []
  | v :: rest, parent, i =>
    flatten_json sep v (parent ++ "[" ++ toString i ++ "]") ++ flattenElems sep rest parent (i + 1)
end

/-- Python dict assignment `d[k] = v`: replace in place if the key exists, else append. -/
def dictSet (d : List (String × JVal)) (k : String) (v : JVal) : List (String × JVal) :=
  if d.any (fun kv => kv.1 = k) then d.map (fun kv => if kv.1 = k then (k, v) else kv)
  else d ++ [(k, v)]

/-- Python `dict(items)`: first-occurrence position, last-occurrence value. -/
def dictOf (items : List (String × JVal)) : List (String × JVal) :=
  items.foldl (fun acc kv => dictSet acc kv.1 kv.2) []

/-- Python `d.get(k)` on a dict (unique keys), `None` when absent. -/
def dictGet (d : List (String × JVal)) (k : String) : Option JVal :=
  (d.find? (fun kv => kv.1 = k)).map Prod.snd

/-- The flattened dict of a document, `self.flatten_json(json)` followed by `dict(...)`. -/
def flatDict (j : Json) : List (String × JVal) :=
  dictOf (flatten_json "." j "")

/-- `flat.get(key)` as the Python runtime value: a missing key yields `None`, which is
indistinguishable from a JSON `null` leaf. -/
def effVal (j : Json) (key : String) : JVal :=
  (dictGet (flatDict j) key).getD .null

/-- The classification returned by `compare_values`. -/
inductive DiffType where
  | added
  | removed
  | type_changed
  | modified
  | same
  deriving DecidableEq, Repr

/-- `JSONComparator.compare_values` (json_compare.py:95-108).  `val1`/`val2` are the
`flat.get(key)` results, on which Python cannot distinguish a missing path from a
`null` leaf: both are `None`, here `JVal.null`. -/
def compare_values (val1 val2 : JVal) : DiffType :=
  if val1 = .null ∧ val2 ≠ .null then .added
  else if val1 ≠ .null ∧ val2 = .null then .removed
  else if val1.typeName ≠ val2.typeName then .type_changed
  else if val1 ≠ val2 then .modified
  else .same

/-- One row of the difference report (`differences.append({...})`,
json_compare.py:132-140; the friendly-description lookup with the default empty
translation table always yields `""`). -/
structure DiffEntry where
  path : String
  friendly_description : String
  difference_type : DiffType
  su_input_valor : Option String
  contrato_input_valor : Option String
  su_input_tipo : Option String
  contrato_input_tipo : Option String
  deriving DecidableEq, Repr

/-- `sorted(set(flat1) | set(flat2))`: the deduplicated, sorted key union. -/
def allKeysOf (j1 j2 : Json) : List String :=
  sortStrings (dedupKeys ((flatDict j1).map Prod.fst ++ (flatDict j2).map Prod.fst))

/-- The entry built for one key inside the `compare_jsons` loop. -/
def diffEntryFor (j1 j2 : Json) (key : String) : DiffEntry :=
  let val1 := effVal j1 key
  let val2 := effVal j2 key
  { path := key
    friendly_description := ""
    difference_type := compare_values val1 val2
    su_input_valor := if val1 = .null then none else some val1.pyStr
    contrato_input_valor := if val2 = .null then none else some val2.pyStr
    su_input_tipo := if val1 = .null then none else some val1.typeName
    contrato_input_tipo := if val2 = .null then none else some val2.typeName }

/-- `JSONComparator.compare_jsons` (json_compare.py:110-142): flatten both documents,
walk the sorted key union and record every non-`same` classification. -/
def compare_jsons (j1 j2 : Json) : List DiffEntry :=
  (allKeysOf j1 j2).filterMap fun key =>
    let e := diffEntryFor j1 j2 key
    if e.difference_type ≠ .same then some e else none

/-- The classifications that `diff` reports for one path (the claim theorems show this
list is `[k]` for exactly one kind `k`, or empty). -/
def diffKindsAt (j1 j2 : Json) (p : String) : List DiffType :=
  ((compare_jsons j1 j2).filter (fun e => e.path = p)).map DiffEntry.difference_type

end CR2

namespace CR2

/-! ## Structured paths for the flatten round-trip analysis

`flatten_json` renders paths as strings.  To settle the round-trip law we mirror the
same recursion with structured paths (`List Seg`) and relate the two by rendering. -/

/-- One segment of a flattened path: an object key or an array index. -/
inductive Seg where
  | key (s : String)
  | idx (n : Nat)
  deriving DecidableEq, Repr

/-- A character that cannot collide with the path syntax of `flatten_json` at the
default separator: not `'.'`, `'['` or `']'`. -/
def sepFree (c : Char) : Bool := c ≠ '.' && c ≠ '[' && c ≠ ']'

/-- An object key that renders unambiguously: nonempty and separator-free. -/
def goodKey (k : String) : Bool := !k.data.isEmpty && k.data.all sepFree

/-- No string occurs twice. -/
def keysDistinct : List String → Bool
  | [] => true
  | x :: xs => !xs.contains x && keysDistinct xs

mutual
/-- The class of documents on which the round-trip law is settled: no empty objects
or arrays, unique object keys per object, and every key nonempty and separator-free. -/
def goodJson : Json → Bool
  | .scalar _ => true
  | .obj fs => !fs.isEmpty && keysDistinct (fs.map Prod.fst) && goodFields fs
  | .arr es => !es.isEmpty && goodElems es

/-- `goodJson` over the fields of an object. -/
def goodFields : List (String × Json) → Bool
  | [] => true
  | (k, v) :: rest => goodKey k && goodJson v && goodFields rest

/-- `goodJson` over the elements of an array. -/
def goodElems : List Json → Bool
  | [] => true
  | v :: rest => goodJson v && goodElems rest
end

mutual
/-- `flatten_json` with structured instead of rendered paths. -/
def flattenP : Json → List (List Seg × JVal)
  | .scalar v => [([], v)]
  | .obj fs => flattenPF fs
  | .arr es => flattenPE es 0

/-- Structured-path flattening of object fields. -/
def flattenPF : List (String × Json) → List (List Seg × JVal)
  | [] => []
  | (k, v) :: rest => (flattenP v).map (fun pv => (Seg.key k :: pv.1, pv.2)) ++ flattenPF rest

/-- Structured-path flattening of array elements, counting from `i`. -/
def flattenPE : List Json → Nat → List (List Seg × JVal)
  | [], _ => []
  | v :: rest, i => (flattenP v).map (fun pv => (Seg.idx i :: pv.1, pv.2)) ++ flattenPE rest (i + 1)
end

/-- Render a structured path onto an accumulated parent key, exactly as
`flatten_json` extends `parent_key`. -/
def render : String → List Seg → String
  | p, [] => p
  | p, .key k :: r => render (mkObjKey "." p k) r
  | p, .idx i :: r => render (p ++ "[" ++ toString i ++ "]") r

/-- The token stream of a rendered path (`first` marks the leading segment, before
which no dot separator is emitted). -/
def toks : Bool → List Seg → List Char
  | _, [] => []
  | first, .key k :: r => (if first then [] else ['.']) ++ k.data ++ toks false r
  | _, .idx i :: r => '[' :: ((Nat.repr i).data ++ ']' :: toks false r)

/-- All key segments of a path are good. -/
def goodPath : List Seg → Bool
  | [] => true
  | .key k :: r => goodKey k && goodPath r
  | .idx _ :: r => goodPath r

/-- C2 counterexample, left document: a JSON `null` leaf at path `a`. -/
def cexC2A : Json := .obj [("a", .scalar .null)]

/-- C2 counterexample, right document: path `a` absent. -/
def cexC2B : Json := .obj []

/-- Second C2 counterexample pair: `null` versus a value at the same path. -/
def cexC2B' : Json := .obj [("a", .scalar (.int 1))]

/-- C3 counterexample, left document: an empty object below key `a`. -/
def cexC3A : Json := .obj [("a", .obj [])]

/-- C3 counterexample, right document: the empty top-level object. -/
def cexC3B : Json := .obj []

/-- A sample good document used by witnesses. -/
def sampleGoodJson : Json :=
  .obj [("a", .arr [.scalar (.int 1), .scalar (.str "x")]), ("b", .scalar .null)]

end CR2

namespace CR2

/-! ## Mapper value model (`backend/mapping_program.py`)

`PyVal` models the Python values the mapper handles: YAML configuration nodes, CSV
cell strings and produced output values.  Floats are opaque (they carry the cleaned
source text; the mapper never compares or computes with them).  A loaded YAML mapping
is the entry list of its top-level dict (`Config`); a CSV row is a string-to-string
dict (`Record`). -/

/-- A Python runtime value as used by the mapper. -/
inductive PyVal where
  | str (s : String)
  | int (n : Int)
  | float (r : String)
  | bool (b : Bool)
  | none
  | list (xs : List PyVal)
  | dict (xs : List (String × PyVal))

/-- The loaded YAML configuration: entries of the top-level dict. -/
abbrev Config := List (String × PyVal)

/-- One CSV row from `csv.DictReader`: a string-to-string dict. -/
abbrev Record := List (String × String)

/-- Lookup in a Python dict with string keys (unique keys; `None`-free `d.get(k)`). -/
def pvGet (d : List (String × PyVal)) (k : String) : Option PyVal :=
  (d.find? (fun kv => kv.1 = k)).map Prod.snd

/-- Python `k in d` on a dict. -/
def pvHasKey (d : List (String × PyVal)) (k : String) : Bool :=
  (pvGet d k).isSome

/-- Python `d.get(k, default)` on a dict. -/
def pvGetD (d : List (String × PyVal)) (k : String) (default : PyVal) : PyVal :=
  (pvGet d k).getD default

/-- Python subscription `v[k]` with a string key: dict lookup, `KeyError` when the key
is missing, `TypeError` on anything that is not a dict. -/
def pvIndex (v : PyVal) (k : String) : Except String PyVal :=
  match v with
  | .dict d =>
    match pvGet d k with
    | some r => .ok r
    | Option.none => .error ("KeyError: " ++ k)
  | _ => .error ("TypeError: value is not subscriptable by " ++ k)

/-- Python `row.get(field)` on a CSV row. -/
def rowGet (row : Record) (k : String) : Option String :=
  (row.find? (fun kv => kv.1 = k)).map Prod.snd

/-- Python `row[field]` on a CSV row (`KeyError` when absent). -/
def rowIndex (row : Record) (k : String) : Except String String :=
  match rowGet row k with
  | some v => .ok v
  | Option.none => .error ("KeyError: " ++ k)

mutual
/-- Python `==` on the values the mapper compares.  Scalars follow Python semantics
(including `True == 1`); lists and dicts are compared structurally (the mapper only
ever compares scalars, so Python's order-insensitive dict equality is not modelled). -/
def pvEqB : PyVal → PyVal → Bool
  | .str a, .str b => a = b
  | .int a, .int b => a = b
  | .bool a, .bool b => a = b
  | .bool a, .int b => (if a then (1 : Int) else 0) = b
  | .int a, .bool b => a = (if b then (1 : Int) else 0)
  | .float a, .float b => a = b
  | .none, .none => true
  | .list a, .list b => pvListEqB a b
  | .dict a, .dict b => pvDictEqB a b
  | _, _ => false

/-- Structural list equality for `pvEqB`. -/
def pvListEqB : List PyVal → List PyVal → Bool
  | [], [] => true
  | a :: as, b :: bs => pvEqB a b && pvListEqB as bs
  | _, _ => false

/-- Structural dict-entry equality for `pvEqB`. -/
def pvDictEqB : List (String × PyVal) → List (String × PyVal) → Bool
  | [], [] => true
  | (ka, va) :: as, (kb, vb) :: bs => ka = kb && pvEqB va vb && pvDictEqB as bs
  | _, _ => false
end

/-- Python truthiness (`if value:`) for the values the mapper tests.  An opaque float
is treated as truthy (conditions in the configurations are strings). -/
def pyFalsy : PyVal → Bool
  | .str s => s = ""
  | .int n => n = 0
  | .bool b => !b
  | .none => true
  | .float _ => false
  | .list xs => xs.isEmpty
  | .dict d => d.isEmpty

/-- Python dict assignment `d[k] = v` on mapper values. -/
def dictSetPv (d : List (String × PyVal)) (k : String) (v : PyVal) : List (String × PyVal) :=
  if d.any (fun kv => kv.1 = k) then d.map (fun kv => if kv.1 = k then (k, v) else kv)
  else d ++ [(k, v)]

/-- Python `d.update(other)`: apply `d[k] = v` for every entry of `other` in order. -/
def dictUpdatePv (d add : List (String × PyVal)) : List (String × PyVal) :=
  add.foldl (fun acc kv => dictSetPv acc kv.1 kv.2) d

/-- The result of `_determine_leg_assignments` (mapping_program.py:113-116): the
`assignments` dict, whose two entries start as `None`. -/
structure LegAssignments where
  receive_leg_source : Option Nat
  pay_leg_source : Option Nat
  deriving DecidableEq, Repr

/-- The `**context` keyword arguments threaded through `_process_field_mapping`:
`leg_idx`, `is_receive` and `leg_object` (a key is absent when the call site did not
pass it).  The `receive_leg_idx` kwarg passed by `_build_header` is read by nothing
and therefore not modelled. -/
structure Ctx where
  leg_idx : Option Nat := Option.none
  is_receive : Option Bool := Option.none
  leg_object : Option PyVal := Option.none

/-- `_resolve_field_template` (mapping_program.py:254-263).  `la = Option.none` models
the empty dict `{}` that `_calculate_period_value` passes for `leg_assignments`
(whose `.get('receive_leg_source', 0)` then yields `0`); a present assignment dict
always holds the key, possibly with value `None`, rendered `"None"` by `str`.
A non-string template raises `TypeError` (`'..' in template`). -/
def resolve_field_template (tpl : PyVal) (la : Option LegAssignments) (ctx : Ctx) : Except String String :=
  match tpl with
  | .str s =>
    let s1 := if strContains s "{receive_leg_idx}" then
        let rli : String := match la with
          | some a =>
            match a.receive_leg_source with
            | some n => toString n
            | Option.none => "None"
          | Option.none => "0"
        strReplace s "{receive_leg_idx}" rli
      else s
    let s2 := if strContains s1 "{idx}" then
        match ctx.leg_idx with
        | some i => strReplace s1 "{idx}" (toString i)
        | Option.none => s1
      else s1
    .ok s2
  | _ => .error "TypeError: argument of type is not iterable"

/-- Python `template.format(idx=i)` as used on the role-field template
(mapping_program.py:120): substitute `\x7bidx\x7d`; any placeholder left over raises
(brace escaping is not modelled; the role templates contain none). -/
def pyFormatIdx (tpl : String) (i : Nat) : Except String String :=
  let r := strReplace tpl "{idx}" (toString i)
  if strContains r "\x7b" || strContains r "\x7d" then .error "KeyError: unknown format placeholder"
  else .ok r

end CR2

namespace CR2

/-! ## Value transformation library (`mapping_program.py:414-625`) -/

/-- Gregorian leap year, as `datetime` validates day-of-month. -/
def isLeap (y : Nat) : Bool := (y % 4 = 0 && y % 100 ≠ 0) || y % 400 = 0

/-- Days in a month for `datetime` validation. -/
def daysInMonth (y m : Nat) : Nat :=
  if m = 2 then (if isLeap y then 29 else 28)
  else if m = 4 || m = 6 || m = 9 || m = 11 then 30
  else 31

/-- A validated `datetime.date` (year 1–9999). -/
structure Date where
  y : Nat
  m : Nat
  d : Nat
  deriving DecidableEq, Repr

/-- A numeric field of at most `maxLen` digits, as the `strptime` regex fragments
`\d{1,4}` / `\d{1,2}` match. -/
def numField (maxLen : Nat) (t : String) : Option Nat :=
  if !t.data.isEmpty && t.data.length ≤ maxLen && t.data.all Char.isDigit then
    some (digitsToNat t.data)
  else Option.none

/-- `datetime(...)` range validation. -/
def mkValidDate (y m d : Nat) : Option Date :=
  if 1 ≤ y && y ≤ 9999 && 1 ≤ m && m ≤ 12 && 1 ≤ d && d ≤ daysInMonth y m then
    some ⟨y, m, d⟩
  else Option.none

/-- Split into exactly three parts on a separator. -/
def dateParts (s sep : String) : Option (String × String × String) :=
  match strSplitOn s sep with
  | [a, b, c] => some (a, b, c)
  | _ => Option.none

/-- `datetime.strptime(s, fmt)` for the four formats the mapper uses; any other
format string parses nothing. -/
def pyStrptime (fmt s : String) : Option Date :=
  if fmt = "%Y-%m-%d" then do
    let (a, b, c) ← dateParts s "-"
    let y ← numField 4 a
    let m ← numField 2 b
    let d ← numField 2 c
    mkValidDate y m d
  else if fmt = "%d/%m/%Y" then do
    let (a, b, c) ← dateParts s "/"
    let d ← numField 2 a
    let m ← numField 2 b
    let y ← numField 4 c
    mkValidDate y m d
  else if fmt = "%m/%d/%Y" then do
    let (a, b, c) ← dateParts s "/"
    let m ← numField 2 a
    let d ← numField 2 b
    let y ← numField 4 c
    mkValidDate y m d
  else if fmt = "%Y/%m/%d" then do
    let (a, b, c) ← dateParts s "/"
    let y ← numField 4 a
    let m ← numField 2 b
    let d ← numField 2 c
    mkValidDate y m d
  else Option.none

/-- Two-digit zero padding of `strftime` `%d` / `%m`. -/
def pad2 (n : Nat) : String := if n < 10 then "0" ++ toString n else toString n

/-- `dt.strftime('%d/%m/%Y')`. -/
def fmtDDMMYYYY (dt : Date) : String :=
  pad2 dt.d ++ "/" ++ pad2 dt.m ++ "/" ++ toString dt.y

/-- The `format_mapping` table of `_transform_date` (mapping_program.py:498-503). -/
def format_mapping : List (String × String) :=
  [("YYYY-MM-DD", "%Y-%m-%d"), ("DD/MM/YYYY", "%d/%m/%Y"),
   ("MM/DD/YYYY", "%m/%d/%Y"), ("YYYY/MM/DD", "%Y/%m/%d")]

/-- The `alternative_formats` fallback list (mapping_program.py:513). -/
def alternative_formats : List String :=
  ["%d/%m/%Y", "%Y-%m-%d", "%m/%d/%Y", "%Y/%m/%d"]

/-- The fallback loop of `_transform_date` (mapping_program.py:513-521): try each
alternative format other than the configured one; if none parses, return the raw
string unchanged (a warning is logged, nothing is raised). -/
def tryAlternatives (input_format date_str : String) : List String → String
  | [] => date_str
  | f :: rest =>
    if f ≠ input_format then
      match pyStrptime f date_str with
      | some dt => fmtDDMMYYYY dt
      | Option.none => tryAlternatives input_format date_str rest
    else tryAlternatives input_format date_str rest

/-- The `strptime` format selected by `_transform_date` (mapping_program.py:495-505):
`config.get('date_format', 'YYYY-MM-DD')` looked up in `format_mapping` with default
`'%Y-%m-%d'`. -/
def configuredDateFormat (config : Config) : String :=
  match pvGetD config "date_format" (.str "YYYY-MM-DD") with
  | .str s => ((format_mapping.find? (fun kv => kv.1 = s)).map Prod.snd).getD "%Y-%m-%d"
  | _ => "%Y-%m-%d"

/-- `_transform_date` (mapping_program.py:489-525): parse with the configured format
(default `YYYY-MM-DD`), re-render as `DD/MM/YYYY`; on failure try the alternatives;
on total failure return the input unchanged.  Total by construction. -/
def transform_date (config : Config) (date_str : String) : String :=
  if date_str = "" then ""
  else
    let input_format := configuredDateFormat config
    match pyStrptime input_format date_str with
    | some dt => fmtDDMMYYYY dt
    | Option.none => tryAlternatives input_format date_str alternative_formats

/-- `_transform_notional` (mapping_program.py:618-625): reject empty input, strip
thousands separators and spaces, parse as float (kept opaque). -/
def transform_notional (notional_str : String) : Except String PyVal :=
  if notional_str = "" then .error "ValueError: Notional amount cannot be empty"
  else
    let clean := strReplace (strReplace notional_str "," "") " " ""
    if pyFloatSyntax clean then .ok (.float (pyStrip clean))
    else .error ("ValueError: could not convert string to float: " ++ clean)

/-- `_transform_settlement_type` (mapping_program.py:584-592). -/
def transform_settlement_type (settlement_str : String) : Except String String :=
  let mapping : List (String × String) := [("C", "CASH"), ("E", "PHYSICAL")]
  match (mapping.find? (fun kv => kv.1 = settlement_str)).map Prod.snd with
  | some v => .ok v
  | Option.none => .error ("ValueError: Unknown settlement mechanism: " ++ settlement_str)

/-- Python `v in container` for a string `v` (dict-key membership, list membership,
substring test; anything else raises `TypeError`). -/
def pyContainsStr (container : PyVal) (v : String) : Except String Bool :=
  match container with
  | .dict d => .ok (pvHasKey d v)
  | .list xs => .ok (xs.any (fun x => pvEqB x (.str v)))
  | .str s => .ok (strContains s v)
  | _ => .error "TypeError: argument of type is not iterable"

/-- Python `int(value)` raising `ValueError` on failure. -/
def pyIntE (s : String) : Except String Int :=
  match pyIntParse s with
  | some n => .ok n
  | Option.none => .error ("ValueError: invalid literal for int: " ++ s)

/-- `_apply_transformation` (mapping_program.py:414-439): dispatch on the
transformation name — the built-in structural kinds, the special-cased
`fx_fixing_lag`, then the strict lookup in `config['transformations']` which raises
`ValueError(f"Unknown {transformation_type}: {value}")` for a value outside the
table, and `ValueError(f"Unknown transformation type: ...")` for an unknown name.
Non-string transformation names (never produced by the YAML configurations) are
modelled as failures. -/
def apply_transformation (value : String) (ttype : PyVal) (config : Config) : Except String PyVal :=
  let transformations := pvGetD config "transformations" (.dict [])
  match ttype with
  | .str t =>
    if t = "date_format" then .ok (.str (transform_date config value))
    else if t = "integer" then do
      let n ← pyIntE value
      .ok (.int n)
    else if t = "float" then
      if pyFloatSyntax value then .ok (.float (pyStrip value))
      else .error ("ValueError: could not convert string to float: " ++ value)
    else if t = "notional" then transform_notional value
    else if t = "fx_fixing_lag" then do
      let mapping ← (match transformations with
        | .dict d => Except.ok (pvGetD d t (.dict []))
        | _ => Except.error "AttributeError: get")
      let c ← pyContainsStr mapping value
      if c then pvIndex mapping value
      else if value = "" then .ok (.int 0)
      else do
        let n ← pyIntE value
        .ok (.int n)
    else do
      let c ← pyContainsStr transformations t
      if c then do
        let mapping ← pvIndex transformations t
        let cv ← pyContainsStr mapping value
        if cv then pvIndex mapping value
        else .error ("ValueError: Unknown " ++ t ++ ": " ++ value)
      else .error ("ValueError: Unknown transformation type: " ++ t)
  | _ => .error "ValueError: Unknown transformation type (non-string name)"

end CR2

namespace CR2

/-! ## Field mapping interpreter (`mapping_program.py:103-412`) -/

/-- `"TERM"`, or `"ATMATURITY"` for payment-frequency calculations
(the repeated tail of `_calculate_period_value`). -/
def termOr (calc_type : PyVal) : String :=
  if pvEqB calc_type (.str "payment_frequency") then "ATMATURITY" else "TERM"

/-- The date-span check of `_calculate_period_value` (mapping_program.py:293-310):
compute the whole-trade month span; any failure inside the `try` is swallowed. -/
def spanCheck (source_fields : PyVal) (row : Record) (leg_idx : Nat) : Option Int :=
  match (do
    let startT ← pvIndex source_fields "start_date"
    let start_field ← resolve_field_template startT Option.none { leg_idx := some leg_idx }
    let endT ← pvIndex source_fields "end_date"
    let end_field ← resolve_field_template endT Option.none { leg_idx := some leg_idx }
    let start_str ← rowIndex row start_field
    let end_str ← rowIndex row end_field
    let sd ← (match pyStrptime "%Y-%m-%d" start_str with
      | some dt => Except.ok dt
      | Option.none => Except.error "ValueError: strptime")
    let ed ← (match pyStrptime "%Y-%m-%d" end_str with
      | some dt => Except.ok dt
      | Option.none => Except.error "ValueError: strptime")
    Except.ok (((ed.y : Int) - sd.y) * 12 + ((ed.m : Int) - sd.m)) : Except String Int) with
  | .ok n => some n
  | .error _ => Option.none

/-- The final unit rendering of `_calculate_period_value` (mapping_program.py:312-322). -/
def unitRender (years months days : Int) (calc_type : PyVal) : String :=
  if years > 0 then toString years ++ "Y"
  else if months > 0 then toString months ++ "M"
  else if days > 0 then toString days ++ "D"
  else termOr calc_type

/-- `'start_date' in source_fields and 'end_date' in source_fields`
(only a dict can reach this point, its subscription having succeeded before). -/
def hasSpanFields (source_fields : PyVal) : Bool :=
  match source_fields with
  | .dict d => pvHasKey d "start_date" && pvHasKey d "end_date"
  | _ => false

/-- `_calculate_period_value` (mapping_program.py:265-322): resolve the three field
templates, read and parse the three integers, then apply the zero-coupon threshold,
the all-zero rule, the optional date-span tolerance check and the unit rendering. -/
def calculate_period_value (source_fields : PyVal) (calc_type : PyVal) (row : Record)
    (ctx : Ctx) : Except String String := do
  let leg_idx := ctx.leg_idx.getD 0
  let yearsT ← pvIndex source_fields "years"
  let years_field ← resolve_field_template yearsT Option.none { leg_idx := some leg_idx }
  let monthsT ← pvIndex source_fields "months"
  let months_field ← resolve_field_template monthsT Option.none { leg_idx := some leg_idx }
  let daysT ← pvIndex source_fields "days"
  let days_field ← resolve_field_template daysT Option.none { leg_idx := some leg_idx }
  let yearsS ← rowIndex row years_field
  let years ← pyIntE yearsS
  let monthsS ← rowIndex row months_field
  let months ← pyIntE monthsS
  let daysS ← rowIndex row days_field
  let days ← pyIntE daysS
  if years ≥ 25 then .ok (termOr calc_type)
  else
    let total_months := years * 12 + months
    if total_months = 0 ∧ days = 0 then .ok (termOr calc_type)
    else if hasSpanFields source_fields then
      match spanCheck source_fields row leg_idx with
      | some trade_months =>
        if total_months ≥ trade_months - 1 then .ok (termOr calc_type)
        else .ok (unitRender years months days calc_type)
      | Option.none => .ok (unitRender years months days calc_type)
    else .ok (unitRender years months days calc_type)

/-- `re.findall(r"'([^']*)'", s)`: the segments of a single-quote split that sit
between a quote pair.  The `Bool` argument says whether the next segment is inside
quotes; a segment opened but never closed is not matched. -/
def quotedAux : List String → Bool → List String
  | [], _ => []
  | [_], true => []
  | x :: rest, true => x :: quotedAux rest false
  | _ :: rest, false => quotedAux rest true

/-- All single-quoted spans of a string, in order. -/
def findQuoted (s : String) : List String :=
  quotedAux (strSplitOn s "'") false

/-- `_check_condition` (mapping_program.py:385-412): falsy conditions are `False`;
a string condition has `\x7bidx\x7d` substituted and supports the two grammars
`field in ['a', 'b']` and `field is not empty`; any other grammar yields `False`.
A truthy non-string condition raises (`.replace` on a non-string). -/
def check_condition (condition : PyVal) (row : Record) (leg_idx : Nat) : Except String Bool :=
  if pyFalsy condition then .ok false
  else match condition with
    | .str s =>
      let c := strReplace s "{idx}" (toString leg_idx)
      if strContains c " in [" then
        match strSplitOn c " in [" with
        | [field_part, values_part] =>
          let field_name := pyStrip field_part
          let values_str := rstripChar values_part ']'
          let values := findQuoted values_str
          .ok (match rowGet row field_name with
            | some v => values.contains v
            | Option.none => false)
        | _ => .error "ValueError: too many values to unpack"
      else if strContains c " is not empty" then
        let field_name := pyStrip (strReplace c " is not empty" "")
        .ok (match rowGet row field_name with
          | some v => v ≠ ""
          | Option.none => false)
      else .ok false
    | _ => .error "AttributeError: replace"

/-- The reference-path walk of the `reference_field` branch
(mapping_program.py:223-232): follow dict entries, defaulting to `["CLSA"]`. -/
def navigateRef : List String → PyVal → PyVal
  | [], current => current
  | part :: rest, current =>
    match current with
    | .dict d =>
      match pvGet d part with
      | some nxt => navigateRef rest nxt
      | Option.none => .list [.str "CLSA"]
    | _ => .list [.str "CLSA"]

/-- Branches 5–9 of `_process_field_mapping` (mapping_program.py:202-252):
`fallback_source`, `reference_field`, the nested-object recursion, the leg-role
selection and the final verbatim return.  `nested` is the result of the
nested-object recursion over `cfg`, passed in by `process_field_mapping` and
examined only when branch 7 fires. -/
def pfmTail (cfg : List (String × PyVal)) (row : Record) (la : LegAssignments)
    (ctx : Ctx) (nested : Except String (List (String × PyVal))) : Except String PyVal :=
  -- 5. fallback_source (line 203)
  if pvHasKey cfg "fallback_source" then
    let primaryResult : Option String :=
      if pvHasKey cfg "source_field" then
        match resolve_field_template (pvGetD cfg "source_field" .none) (some la) ctx with
        | .ok source_field =>
          match rowGet row source_field with
          | some v => if v ≠ "" then some v else Option.none
          | Option.none => Option.none
        | .error _ => Option.none
      else Option.none
    match primaryResult with
    | some v => .ok (.str v)
    | Option.none =>
      match resolve_field_template (pvGetD cfg "fallback_source" .none) (some la) ctx with
      | .ok fallback_field =>
        match rowIndex row fallback_field with
        | .ok v => .ok (.str v)
        | .error e => .error e
      | .error e => .error e
  -- 6. reference_field (line 219)
  else if pvHasKey cfg "reference_field" then
    match pvGetD cfg "reference_field" .none with
    | .str ref_path =>
      .ok (navigateRef (strSplitOn ref_path ".") (ctx.leg_object.getD (.dict [])))
    | _ => .error "AttributeError: split"
  -- 7. nested object mappings (line 235)
  else if !(pvHasKey cfg "source_field" || pvHasKey cfg "static_value" ||
      pvHasKey cfg "dynamic_value" || pvHasKey cfg "source_fields") then
    match nested with
    | .ok entries => .ok (.dict entries)
    | .error e => .error e
  -- 8. leg role-based values (line 243)
  else if pvHasKey cfg "receive_leg" then
    if ctx.is_receive.getD false then .ok (pvGetD cfg "receive_leg" .none)
    else .ok (pvGetD cfg "pay_leg" .none)
  -- 9. verbatim (line 252)
  else .ok (.dict cfg)

/-- The `'fallback' in source_fields` part of branch 4 (mapping_program.py:195-200);
when no fallback is configured control continues with `tail`, the chain of
branches 5–9. -/
def pfmSfFallback (cfg sf : List (String × PyVal)) (row : Record) (la : LegAssignments)
    (ctx : Ctx) (config : Config) (tail : Except String PyVal) : Except String PyVal :=
  if pvHasKey sf "fallback" then do
    let fallback_field ← resolve_field_template (pvGetD sf "fallback" .none) (some la) ctx
    let value ← rowIndex row fallback_field
    if pvHasKey cfg "transformation" then
      apply_transformation value (pvGetD cfg "transformation" .none) config
    else .ok (.str value)
  else tail

mutual
/-- `_process_field_mapping` (mapping_program.py:144-252): the priority-ordered
branch chain over the shape of the field configuration.  A configuration that is not
a dict, or a dict on which every branch falls through, is returned verbatim
(line 252).  Branches 5–9 live in `pfmTail`, reachable on three distinct
fall-through paths. -/
def process_field_mapping (field_config : PyVal) (row : Record) (la : LegAssignments)
    (ctx : Ctx) (source : String) (config : Config) : Except String PyVal :=
  match field_config with
  | .dict cfg =>
    let tail := pfmTail cfg row la ctx (process_entries cfg row la ctx source config)
    -- 1. static values (line 149)
    if pvHasKey cfg "static_value" then .ok (pvGetD cfg "static_value" .none)
    -- 2. dynamic values (line 153); a non-matching kind falls through
    else if pvHasKey cfg "dynamic_value" &&
        pvEqB (pvGetD cfg "dynamic_value" .none) (.str "source_parameter") then
      .ok (.str source)
    -- 3. simple source field, unless fallback_source is also present (line 158)
    else if pvHasKey cfg "source_field" && !pvHasKey cfg "fallback_source" then do
      let source_field ← resolve_field_template (pvGetD cfg "source_field" .none) (some la) ctx
      let value ← rowIndex row source_field
      if pvHasKey cfg "transformation" then
        apply_transformation value (pvGetD cfg "transformation" .none) config
      else .ok (.str value)
    -- 4. source_fields with calculation type or primary/fallback (line 172)
    else if pvHasKey cfg "source_fields" then
      let source_fields := pvGetD cfg "source_fields" .none
      if pvHasKey cfg "calculation_type" then do
        let s ← calculate_period_value source_fields (pvGetD cfg "calculation_type" .none) row ctx
        .ok (.str s)
      else match source_fields with
        | .dict sf =>
          if pvHasKey sf "primary" then do
            let primary_field ← resolve_field_template (pvGetD sf "primary" .none) (some la) ctx
            match rowGet row primary_field with
            | some value =>
              if value ≠ "" then
                if pvHasKey cfg "transformation" then
                  apply_transformation value (pvGetD cfg "transformation" .none) config
                else .ok (.str value)
              else pfmSfFallback cfg sf row la ctx config tail
            | Option.none => pfmSfFallback cfg sf row la ctx config tail
          else tail
        | _ => tail
    else tail
  | other => .ok other

def process_entries (entries : List (String × PyVal)) (row : Record) (la : LegAssignments)
    (ctx : Ctx) (source : String) (config : Config) : Except String (List (String × PyVal)) :=
  match entries with
  | [] => .ok []
  | (k, v) :: rest => do
    let v' ← process_field_mapping v row la ctx source config
    let r ← process_entries rest row la ctx source config
    .ok ((k, v') :: r)
end

end CR2

namespace CR2

/-! ## Leg assignment and trade building (`mapping_program.py:78-142, 324-383`) -/

/-- One iteration of the role-check loop of `_determine_leg_assignments`
(mapping_program.py:119-126): `roles['receive']` is evaluated on every iteration,
`roles['pay']` only when the receive comparison failed. -/
def dlaCheckLeg (roles : PyVal) (tpl : String) (row : Record) (la : LegAssignments)
    (i : Nat) : Except String LegAssignments := do
  let role_field ← pyFormatIdx tpl i
  let leg_role_value : PyVal := match rowGet row role_field with
    | some s => .str s
    | Option.none => .none
  let rc ← pvIndex roles "receive"
  if pvEqB leg_role_value rc then .ok { la with receive_leg_source := some i }
  else do
    let pc ← pvIndex roles "pay"
    if pvEqB leg_role_value pc then .ok { la with pay_leg_source := some i }
    else .ok la

/-- `_determine_leg_assignments` (mapping_program.py:103-128): read the role-field
template and role codes (with their defaults), then check input legs 0 and 1. -/
def determine_leg_assignments (config : Config) (row : Record) : Except String LegAssignments := do
  let leg_assignment := pvGetD config "leg_assignment" (.dict [])
  let laDict ← (match leg_assignment with
    | .dict d => Except.ok d
    | _ => Except.error "AttributeError: get")
  let role_field_template := pvGetD laDict "role_field" (.str "legs[{idx}].leg_generator.rp")
  let roles := pvGetD laDict "roles" (.dict [("receive", .str "A"), ("pay", .str "P")])
  let tpl ← (match role_field_template with
    | .str s => Except.ok s
    | _ => Except.error "AttributeError: format")
  let la0 ← dlaCheckLeg roles tpl row ⟨Option.none, Option.none⟩ 0
  dlaCheckLeg roles tpl row la0 1

/-- `_build_header` (mapping_program.py:130-142): resolve every header mapping in
order (the context passes nothing the interpreter reads). -/
def build_header (config : Config) (source : String) (row : Record)
    (la : LegAssignments) : Except String (List (String × PyVal)) :=
  match pvGetD config "header_mappings" (.dict []) with
  | .dict hm => process_entries hm row la {} source config
  | _ => .error "AttributeError: items"

/-- The conditional-fields loop (mapping_program.py:377-381): each field sees the leg
built so far (`leg_object=leg`) and is assigned into it. -/
def applyCondFields (fields : List (String × PyVal)) (row : Record) (la : LegAssignments)
    (leg_idx : Nat) (is_receive : Bool) (source : String) (config : Config)
    (leg : List (String × PyVal)) : Except String (List (String × PyVal)) :=
  match fields with
  | [] => .ok leg
  | (fname, fcfg) :: rest => do
    let ctx : Ctx := { leg_idx := some leg_idx, is_receive := some is_receive,
                       leg_object := some (.dict leg) }
    let v ← process_field_mapping fcfg row la ctx source config
    applyCondFields rest row la leg_idx is_receive source config (dictSetPv leg fname v)

/-- The conditional-mappings loop (mapping_program.py:372-381): for each named
conditional whose condition holds, overlay its fields onto the leg. -/
def applyConditionals (conds : List (String × PyVal)) (row : Record) (la : LegAssignments)
    (leg_idx : Nat) (is_receive : Bool) (source : String) (config : Config)
    (leg : List (String × PyVal)) : Except String (List (String × PyVal)) :=
  match conds with
  | [] => .ok leg
  | (_, ccfg) :: rest => do
    let ccfgD ← (match ccfg with
      | .dict d => Except.ok d
      | _ => Except.error "AttributeError: get")
    let cond ← check_condition (pvGetD ccfgD "condition" (.str "")) row leg_idx
    let leg' ← if cond then do
        let fields ← (match pvGetD ccfgD "fields" (.dict []) with
          | .dict d => Except.ok d
          | _ => Except.error "AttributeError: items")
        applyCondFields fields row la leg_idx is_receive source config leg
      else Except.ok leg
    applyConditionals rest row la leg_idx is_receive source config leg'

/-- `_build_single_leg_from_config` (mapping_program.py:358-383): the plain leg
mappings in order, then the conditional mappings. -/
def build_single_leg (config : Config) (source : String) (row : Record) (leg_idx : Nat)
    (is_receive : Bool) (la : LegAssignments) : Except String (List (String × PyVal)) := do
  let lm ← (match pvGetD config "leg_mappings" (.dict []) with
    | .dict d => Except.ok d
    | _ => Except.error "AttributeError: items")
  let ctx : Ctx := { leg_idx := some leg_idx, is_receive := some is_receive }
  let leg ← process_entries lm row la ctx source config
  let cm ← (match pvGetD config "conditional_leg_mappings" (.dict []) with
    | .dict d => Except.ok d
    | _ => Except.error "AttributeError: items")
  applyConditionals cm row la leg_idx is_receive source config leg

/-- The hardcoded seed of the canonical receive leg (mapping_program.py:332-336). -/
def pataActivaSeed : List (String × PyVal) :=
  [("legId", .str "Pata-Activa"), ("payerPartyReference", .str "OurCounterparty"),
   ("receiverPartyReference", .str "ThisBank")]

/-- The hardcoded seed of the canonical pay leg (mapping_program.py:346-350). -/
def pataPasivaSeed : List (String × PyVal) :=
  [("legId", .str "Pata-Pasiva"), ("payerPartyReference", .str "ThisBank"),
   ("receiverPartyReference", .str "OurCounterparty")]

/-- `_build_legs` (mapping_program.py:324-356): the receive leg is appended first
when a receive source is assigned, then the pay leg when a pay source is assigned;
each starts from its hardcoded seed and is overlaid (`dict.update`) with the
configured leg fields. -/
def build_legs (config : Config) (source : String) (row : Record)
    (la : LegAssignments) : Except String (List (List (String × PyVal))) := do
  let recLegs ← (match la.receive_leg_source with
    | some idx => do
      let additional ← build_single_leg config source row idx true la
      Except.ok [dictUpdatePv pataActivaSeed additional]
    | Option.none => Except.ok [])
  let payLegs ← (match la.pay_leg_source with
    | some idx => do
      let additional ← build_single_leg config source row idx false la
      Except.ok [dictUpdatePv pataPasivaSeed additional]
    | Option.none => Except.ok [])
  .ok (recLegs ++ payLegs)

/-- The trade object `{"header": ..., "legs": ...}` (mapping_program.py:91-94). -/
structure Trade where
  header : List (String × PyVal)
  legs : List (List (String × PyVal))

/-- `_transform_single_trade` (mapping_program.py:78-101): the whole per-record
pipeline inside `try`; any raised error is caught, logged and turned into `None`. -/
def transform_single_trade (config : Config) (source : String) (row : Record) : Option Trade :=
  match (do
    let la ← determine_leg_assignments config row
    let header ← build_header config source row la
    let legs ← build_legs config source row la
    Except.ok { header := header, legs := legs } : Except String Trade) with
  | .ok t => some t
  | .error _ => Option.none

/-- Value of a field inside a built leg (dict lookup on the produced leg). -/
def legField (leg : List (String × PyVal)) (k : String) : Option PyVal :=
  pvGet leg k

end CR2

namespace CR2

/-! ## Fixtures for the claim witnesses and counterexamples -/

/-- Is a mapper value a Python dict? -/
def PyVal.isDict : PyVal → Bool
  | .dict _ => true
  | _ => false

/-- The role value a leg contributes in `_determine_leg_assignments`:
`trade_row.get(role_field)`, `None` when absent. -/
def rowValPv (row : Record) (field : String) : PyVal :=
  match rowGet row field with
  | some s => .str s
  | Option.none => .none

/-- A record carrying only a pay-role marker on input leg 0. -/
def c1Row : Record := [("legs[0].leg_generator.rp", "P")]

/-- A record with the standard role markers: input leg 0 receives, input leg 1 pays. -/
def bothRolesRow : Record :=
  [("legs[0].leg_generator.rp", "A"), ("legs[1].leg_generator.rp", "P")]

/-- A record where both input legs claim the receive role. -/
def c9Row : Record :=
  [("legs[0].leg_generator.rp", "A"), ("legs[1].leg_generator.rp", "A")]

/-- A plain leg-role rule: both literals configured, nothing else. -/
def c4Cfg : PyVal := .dict [("receive_leg", .str "CLP"), ("pay_leg", .str "USD")]

/-- A leg-role rule that also carries a fall-through `source_fields` key, which is how
the role-selection branch of the interpreter can actually be reached. -/
def c4CfgReachable : PyVal :=
  .dict [("source_fields", .none), ("receive_leg", .str "CLP"), ("pay_leg", .str "USD")]

/-- The period-calculation source fields used by the C5 witness. -/
def c5Sf : PyVal :=
  .dict [("years", .str "agnos"), ("months", .str "meses"), ("days", .str "dias")]

/-- A record giving years=30, months=0, days=0. -/
def c5Row : Record := [("agnos", "30"), ("meses", "0"), ("dias", "0")]

/-- A record giving years=2, months=0, days=0. -/
def c5Row2 : Record := [("agnos", "2"), ("meses", "0"), ("dias", "0")]

/-- A configuration whose `date_format` is `YYYY-MM-DD`. -/
def cfgYMD : Config := [("date_format", .str "YYYY-MM-DD")]

/-- A configuration with the settlement-type lookup table of the mapping rules. -/
def cfgSettle : Config :=
  [("transformations", .dict [("settlement_type",
      .dict [("C", .str "CASH"), ("E", .str "PHYSICAL")])])]

/-- A `source_fields` rule with a primary field, no fallback and no other keys. -/
def c10Cfg : PyVal := .dict [("source_fields", .dict [("primary", .str "fld")])]

/-- A record where `fld` is present but empty. -/
def c10Row : Record := [("fld", "")]

end CR2

namespace CR2

/-! ## Lemmas: sorting, dedup and dict building -/

theorem mem_insertSorted {y x : String} {l : List String} :
    y ∈ insertSorted x l ↔ y = x ∨ y ∈ l := by
  induction l with
  | nil => simp [insertSorted]
  | cons h t ih =>
    by_cases hc : strLt h x = true <;> simp [insertSorted, hc, ih] <;> tauto

theorem mem_sortStrings {y : String} {l : List String} : y ∈ sortStrings l ↔ y ∈ l := by
  induction l with
  | nil => simp [sortStrings]
  | cons h t ih =>
    simp only [sortStrings, List.foldr_cons] at ih ⊢
    rw [mem_insertSorted, ih, List.mem_cons]

theorem nodup_insertSorted {x : String} {l : List String} (hx : x ∉ l) (hl : l.Nodup) :
    (insertSorted x l).Nodup := by
  induction l with
  | nil => simp [insertSorted]
  | cons h t ih =>
    rcases List.nodup_cons.mp hl with ⟨hht, ht⟩
    have hxh : x ≠ h := fun h' => hx (h' ▸ List.mem_cons_self ..)
    have hxt : x ∉ t := fun h' => hx (List.mem_cons_of_mem _ h')
    by_cases hc : strLt h x = true
    · simp only [insertSorted, hc, if_true]
      refine List.nodup_cons.mpr ⟨?_, ih hxt ht⟩
      rw [mem_insertSorted]
      rintro (rfl | hmem)
      · exact hxh rfl
      · exact hht hmem
    · simp only [insertSorted, hc, if_false]
      exact List.nodup_cons.mpr ⟨hx, hl⟩

theorem nodup_sortStrings {l : List String} (h : l.Nodup) : (sortStrings l).Nodup := by
  induction l with
  | nil => simp [sortStrings]
  | cons x t ih =>
    rcases List.nodup_cons.mp h with ⟨hxt, ht⟩
    simp only [sortStrings, List.foldr_cons]
    exact nodup_insertSorted (fun hmem => hxt (mem_sortStrings.mp hmem)) (ih ht)

theorem mem_dedupAux {y : String} : ∀ (l seen : List String),
    y ∈ dedupAux l seen ↔ y ∈ l ∧ y ∉ seen := by
  intro l
  induction l with
  | nil => intro seen; simp [dedupAux]
  | cons x xs ih =>
    intro seen
    by_cases hx : x ∈ seen
    · rw [show dedupAux (x :: xs) seen = dedupAux xs seen by simp [dedupAux, hx], ih]
      constructor
      · rintro ⟨hy, hns⟩; exact ⟨List.mem_cons_of_mem _ hy, hns⟩
      · rintro ⟨hy, hns⟩
        rcases List.mem_cons.mp hy with rfl | hy'
        · exact absurd hx hns
        · exact ⟨hy', hns⟩
    · rw [show dedupAux (x :: xs) seen = x :: dedupAux xs (x :: seen) by simp [dedupAux, hx]]
      rw [List.mem_cons, ih]
      constructor
      · rintro (rfl | ⟨hy, hns⟩)
        · exact ⟨List.mem_cons_self .., hx⟩
        · exact ⟨List.mem_cons_of_mem _ hy, fun hc => hns (List.mem_cons_of_mem _ hc)⟩
      · rintro ⟨hy, hns⟩
        rcases List.mem_cons.mp hy with rfl | hy'
        · exact Or.inl rfl
        · by_cases hyx : y = x
          · exact Or.inl hyx
          · exact Or.inr ⟨hy', by simp [hyx, hns]⟩

theorem nodup_dedupAux : ∀ (l seen : List String), (dedupAux l seen).Nodup := by
  intro l
  induction l with
  | nil => intro seen; simp [dedupAux]
  | cons x xs ih =>
    intro seen
    by_cases hx : x ∈ seen
    · rw [show dedupAux (x :: xs) seen = dedupAux xs seen by simp [dedupAux, hx]]
      exact ih seen
    · rw [show dedupAux (x :: xs) seen = x :: dedupAux xs (x :: seen) by simp [dedupAux, hx]]
      refine List.nodup_cons.mpr ⟨fun hmem => ?_, ih (x :: seen)⟩
      exact (mem_dedupAux xs (x :: seen)).mp hmem |>.2 (List.mem_cons_self ..)

theorem mem_dedupKeys {y : String} {l : List String} : y ∈ dedupKeys l ↔ y ∈ l := by
  rw [dedupKeys, mem_dedupAux]; simp

theorem nodup_dedupKeys {l : List String} : (dedupKeys l).Nodup := nodup_dedupAux l []

theorem allKeysOf_nodup (j1 j2 : Json) : (allKeysOf j1 j2).Nodup :=
  nodup_sortStrings nodup_dedupKeys

theorem mem_allKeysOf {j1 j2 : Json} {p : String} :
    p ∈ allKeysOf j1 j2 ↔
      p ∈ (flatDict j1).map Prod.fst ∨ p ∈ (flatDict j2).map Prod.fst := by
  rw [allKeysOf, mem_sortStrings, mem_dedupKeys, List.mem_append]

theorem dictGet_isSome_iff {d : List (String × JVal)} {p : String} :
    (dictGet d p).isSome ↔ p ∈ d.map Prod.fst := by
  induction d with
  | nil => simp [dictGet]
  | cons kv rest ih =>
    rw [dictGet] at ih ⊢
    by_cases hk : kv.1 = p
    · rw [List.find?_cons_of_pos _ (by simpa using hk)]
      simp [hk]
    · rw [List.find?_cons_of_neg _ (by simpa using hk)]
      simp only [List.map_cons, List.mem_cons]
      rw [ih]
      constructor
      · exact Or.inr
      · rintro (h | h)
        · exact absurd h.symm hk
        · exact h

theorem dictGet_eq_none_iff {d : List (String × JVal)} {p : String} :
    dictGet d p = Option.none ↔ p ∉ d.map Prod.fst := by
  rw [← dictGet_isSome_iff, Option.isSome_iff_ne_none]; tauto

end CR2


namespace CR2

theorem compare_values_eq_added {v1 v2 : JVal} :
    compare_values v1 v2 = .added ↔ v1 = .null ∧ v2 ≠ .null := by
  cases v1 <;> cases v2 <;>
    simp only [compare_values, JVal.typeName] <;> split_ifs <;> simp_all

theorem compare_values_eq_removed {v1 v2 : JVal} :
    compare_values v1 v2 = .removed ↔ v1 ≠ .null ∧ v2 = .null := by
  cases v1 <;> cases v2 <;>
    simp only [compare_values, JVal.typeName] <;> split_ifs <;> simp_all

theorem compare_values_eq_type_changed {v1 v2 : JVal} :
    compare_values v1 v2 = .type_changed ↔
      v1 ≠ .null ∧ v2 ≠ .null ∧ v1.typeName ≠ v2.typeName := by
  cases v1 <;> cases v2 <;>
    simp only [compare_values, JVal.typeName] <;> split_ifs <;> simp_all

theorem compare_values_eq_modified {v1 v2 : JVal} :
    compare_values v1 v2 = .modified ↔
      v1 ≠ .null ∧ v2 ≠ .null ∧ v1.typeName = v2.typeName ∧ v1 ≠ v2 := by
  cases v1 <;> cases v2 <;>
    simp only [compare_values, JVal.typeName] <;> split_ifs <;> simp_all

theorem compare_values_eq_same {v1 v2 : JVal} :
    compare_values v1 v2 = .same ↔ v1 = v2 := by
  cases v1 <;> cases v2 <;>
    simp only [compare_values, JVal.typeName] <;> split_ifs <;> simp_all

end CR2

namespace CR2

theorem diffEntryFor_path (j1 j2 : Json) (key : String) :
    (diffEntryFor j1 j2 key).path = key := rfl

theorem diffEntryFor_kind (j1 j2 : Json) (key : String) :
    (diffEntryFor j1 j2 key).difference_type
      = compare_values (effVal j1 key) (effVal j2 key) := rfl

theorem diffKinds_aux (j1 j2 : Json) (p : String) :
    ∀ keys : List String, keys.Nodup →
    ((keys.filterMap fun key =>
        let e := diffEntryFor j1 j2 key
        if e.difference_type ≠ .same then some e else none).filter
          (fun e => e.path = p)).map DiffEntry.difference_type
    = if p ∈ keys ∧ (diffEntryFor j1 j2 p).difference_type ≠ .same
      then [(diffEntryFor j1 j2 p).difference_type] else [] := by
  intro keys
  induction keys with
  | nil => simp
  | cons k ks ih =>
    intro hnd
    rcases List.nodup_cons.mp hnd with ⟨hkn, hnd'⟩
    have ihh := ih hnd'
    by_cases hcond : (diffEntryFor j1 j2 k).difference_type = .same
    · rw [List.filterMap_cons_none (by simp [hcond]), ihh]
      by_cases hpk : p = k
      · subst hpk
        rw [if_neg (by simp [hkn]), if_neg (by simp [hcond])]
      · simp only [List.mem_cons, hpk, false_or]
    · have hstep : (List.filterMap (fun key =>
            let e := diffEntryFor j1 j2 key
            if e.difference_type ≠ DiffType.same then some e else none) (k :: ks))
          = diffEntryFor j1 j2 k :: (List.filterMap (fun key =>
            let e := diffEntryFor j1 j2 key
            if e.difference_type ≠ DiffType.same then some e else none) ks) := by
        rw [List.filterMap_cons]
        simp [hcond]
      rw [hstep, List.filter_cons]
      by_cases hpk : p = k
      · subst hpk
        rw [if_pos (by simp [diffEntryFor_path]), List.map_cons, ihh,
          if_neg (by simp [hkn]), if_pos ⟨List.mem_cons_self .., hcond⟩]
      · rw [if_neg (by simp [diffEntryFor_path, Ne.symm hpk]), ihh]
        simp only [List.mem_cons, hpk, false_or]

theorem diffKindsAt_eq (j1 j2 : Json) (p : String) :
    diffKindsAt j1 j2 p
    = if p ∈ allKeysOf j1 j2 ∧ compare_values (effVal j1 p) (effVal j2 p) ≠ .same
      then [compare_values (effVal j1 p) (effVal j2 p)] else [] := by
  have h := diffKinds_aux j1 j2 p (allKeysOf j1 j2) (allKeysOf_nodup j1 j2)
  rw [diffKindsAt, compare_jsons, h, diffEntryFor_kind]

end CR2

namespace CR2

/-- The auxiliary step for the C2 theorem: for a reported (non-`same`) kind, the
classification list at an in-union path is `[k]` exactly when `compare_values`
returns `k`. -/
theorem diffKindsAt_eq_single {j1 j2 : Json} {p : String} (hp : p ∈ allKeysOf j1 j2)
    (k : DiffType) (hk : k ≠ .same) :
    diffKindsAt j1 j2 p = [k] ↔ compare_values (effVal j1 p) (effVal j2 p) = k := by
  rw [diffKindsAt_eq]
  by_cases hs : compare_values (effVal j1 p) (effVal j2 p) = .same
  · rw [if_neg (by simp [hs]), hs]
    simp [Ne.symm hk]
  · rw [if_pos ⟨hp, hs⟩]
    simp

/-- The auxiliary step for the C2 theorem: no entry is reported at an in-union path
exactly when `compare_values` says `same`. -/
theorem diffKindsAt_eq_nil {j1 j2 : Json} {p : String} (hp : p ∈ allKeysOf j1 j2) :
    diffKindsAt j1 j2 p = [] ↔ compare_values (effVal j1 p) (effVal j2 p) = .same := by
  rw [diffKindsAt_eq]
  by_cases hs : compare_values (effVal j1 p) (effVal j2 p) = .same
  · rw [if_neg (by simp [hs])]
    simp [hs]
  · rw [if_pos ⟨hp, hs⟩]
    simp [hs]

/-- C2 (amended): the diff entries partition into Added/Removed/Modified/TypeChanged
once a JSON `null` leaf is identified with an absent path (`effVal` is the flattened
value with missing-or-null collapsed to `null`, exactly what `flat.get(key)` hands
`compare_values`): at every path of the key union, the reported classification is
Added iff the left effective value is null and the right is not, Removed in the
symmetric case, TypeChanged iff both are non-null with different runtime types,
Modified iff both are non-null with equal runtime type but unequal value, and no
entry is reported iff the two effective values are equal. -/
theorem c2_diff_partition_nullsafe (j1 j2 : Json) (p : String)
    (hp : p ∈ allKeysOf j1 j2) :
    (diffKindsAt j1 j2 p = [.added] ↔ effVal j1 p = .null ∧ effVal j2 p ≠ .null)
  ∧ (diffKindsAt j1 j2 p = [.removed] ↔ effVal j1 p ≠ .null ∧ effVal j2 p = .null)
  ∧ (diffKindsAt j1 j2 p = [.type_changed] ↔
      effVal j1 p ≠ .null ∧ effVal j2 p ≠ .null ∧
        (effVal j1 p).typeName ≠ (effVal j2 p).typeName)
  ∧ (diffKindsAt j1 j2 p = [.modified] ↔
      effVal j1 p ≠ .null ∧ effVal j2 p ≠ .null ∧
        (effVal j1 p).typeName = (effVal j2 p).typeName ∧ effVal j1 p ≠ effVal j2 p)
  ∧ (diffKindsAt j1 j2 p = [] ↔ effVal j1 p = effVal j2 p) :=
  ⟨(diffKindsAt_eq_single hp .added (by simp)).trans compare_values_eq_added,
   (diffKindsAt_eq_single hp .removed (by simp)).trans compare_values_eq_removed,
   (diffKindsAt_eq_single hp .type_changed (by simp)).trans compare_values_eq_type_changed,
   (diffKindsAt_eq_single hp .modified (by simp)).trans compare_values_eq_modified,
   (diffKindsAt_eq_nil hp).trans compare_values_eq_same⟩

/-- C2 witness: on the concrete pair with a `null`-vs-`1` leaf at path `a`, the
theorem instantiates and classifies the path as Added. -/
theorem c2_diff_partition_nullsafe_witness :
    ("a" ∈ allKeysOf cexC2A cexC2B') ∧ diffKindsAt cexC2A cexC2B' "a" = [.added] :=
  ⟨by decide,
   ((c2_diff_partition_nullsafe cexC2A cexC2B' "a" (by decide)).1).mpr (by decide)⟩

/-- C2 counterexample to the claim as stated: the path `a` is present (flattened) in
exactly one of the two documents, yet `diff` reports nothing at all for it — it is
neither Added nor Removed; and at a path where a `null` leaf faces an `int` leaf
(differing runtime types) the entry is classified Added, not TypeChanged. -/
theorem c2_counterexample :
    compare_jsons cexC2A cexC2B = []
  ∧ dictGet (flatDict cexC2A) "a" = some .null
  ∧ dictGet (flatDict cexC2B) "a" = Option.none
  ∧ (compare_jsons cexC2A cexC2B').map DiffEntry.difference_type = [.added] :=
  ⟨rfl, rfl, rfl, rfl⟩

/-- C3 counterexample to the round-trip law as stated: two distinct documents built
only from objects, arrays and scalars (one containing an empty object) flatten to the
same map, so no reconstruction function can invert `flatten` on all documents. -/
theorem c3_counterexample :
    flatten_json "." cexC3A "" = flatten_json "." cexC3B ""
  ∧ cexC3A ≠ cexC3B
  ∧ ¬∃ g : List (String × JVal) → Json, ∀ t : Json, g (flatten_json "." t "") = t := by
  have hne : cexC3A ≠ cexC3B := by
    intro h
    simp [cexC3A, cexC3B] at h
  refine ⟨rfl, hne, ?_⟩
  rintro ⟨g, hg⟩
  have h1 := hg cexC3A
  have h2 := hg cexC3B
  rw [show flatten_json "." cexC3A "" = flatten_json "." cexC3B "" from rfl, h2] at h1
  exact hne h1.symm

end CR2

namespace CR2

/-! ## Lemmas: structured flattening (claim C3, structural phase) -/

theorem append_eq_append_pred {α : Type} (P : α → Prop) :
    ∀ (as bs cs ds : List α), (∀ a ∈ as, P a) → (∀ c ∈ cs, P c) →
    (∀ x ∈ bs.head?, ¬ P x) → (∀ x ∈ ds.head?, ¬ P x) →
    as ++ bs = cs ++ ds → as = cs ∧ bs = ds := by
  intro as
  induction as with
  | nil =>
    intro bs cs ds _ hcs hbs _ heq
    cases cs with
    | nil => exact ⟨rfl, heq⟩
    | cons c cs' =>
      exfalso
      simp only [List.nil_append] at heq
      subst heq
      exact hbs c (by simp) (hcs c (by simp))
  | cons a as' ih =>
    intro bs cs ds has hcs hbs hds heq
    cases cs with
    | nil =>
      exfalso
      simp only [List.nil_append] at heq
      subst heq
      exact hds a (by simp) (has a (by simp))
    | cons c cs' =>
      simp only [List.cons_append, List.cons.injEq] at heq
      obtain ⟨rfl, heq'⟩ := heq
      obtain ⟨h1, h2⟩ := ih bs cs' ds (fun x hx => has x (by simp [hx]))
        (fun x hx => hcs x (by simp [hx])) hbs hds heq'
      exact ⟨by rw [h1], h2⟩

theorem map_consSeg_inj {s : Seg} :
    ∀ {l1 l2 : List (List Seg × JVal)},
    l1.map (fun pv => (s :: pv.1, pv.2)) = l2.map (fun pv => (s :: pv.1, pv.2)) →
    l1 = l2 := by
  intro l1
  induction l1 with
  | nil => intro l2 h; cases l2 <;> simp_all
  | cons x xs ih =>
    intro l2 h
    cases l2 with
    | nil => simp at h
    | cons y ys =>
      simp only [List.map_cons, List.cons.injEq, Prod.mk.injEq, List.cons.injEq] at h
      obtain ⟨⟨h1, h2⟩, h3⟩ := h
      have := ih h3
      subst this
      cases x; cases y
      simp_all

mutual
theorem flattenP_ne_nil : ∀ t : Json, goodJson t = true → flattenP t ≠ [] := by
  intro t hg
  match t with
  | .scalar v => simp [flattenP]
  | .obj fs =>
    rw [goodJson] at hg
    simp only [Bool.and_eq_true] at hg
    rw [flattenP]
    exact flattenPF_ne_nil fs (by simpa using hg.1.1) hg.2
  | .arr es =>
    rw [goodJson] at hg
    simp only [Bool.and_eq_true] at hg
    rw [flattenP]
    exact flattenPE_ne_nil es 0 (by simpa using hg.1) hg.2

theorem flattenPF_ne_nil : ∀ (fs : List (String × Json)), fs ≠ [] → goodFields fs = true →
    flattenPF fs ≠ [] := by
  intro fs hne hg
  match fs with
  | [] => exact absurd rfl hne
  | (k, v) :: rest =>
    rw [goodFields] at hg
    simp only [Bool.and_eq_true] at hg
    rw [flattenPF]
    intro hcontra
    rcases List.append_eq_nil.mp hcontra with ⟨h1, _⟩
    exact flattenP_ne_nil v hg.1.2 (List.map_eq_nil.mp h1)

theorem flattenPE_ne_nil : ∀ (es : List Json) (i : Nat), es ≠ [] → goodElems es = true →
    flattenPE es i ≠ [] := by
  intro es i hne hg
  match es with
  | [] => exact absurd rfl hne
  | v :: rest =>
    rw [goodElems] at hg
    simp only [Bool.and_eq_true] at hg
    rw [flattenPE]
    intro hcontra
    rcases List.append_eq_nil.mp hcontra with ⟨h1, _⟩
    exact flattenP_ne_nil v hg.1 (List.map_eq_nil.mp h1)
end

theorem flattenPF_head_key : ∀ (fs : List (String × Json)) (pv : List Seg × JVal),
    pv ∈ flattenPF fs → ∃ k p', pv.1 = Seg.key k :: p' ∧ k ∈ fs.map Prod.fst := by
  intro fs
  induction fs with
  | nil => intro pv h; simp [flattenPF] at h
  | cons kv rest ih =>
    intro pv h
    obtain ⟨k, v⟩ := kv
    rw [flattenPF] at h
    rcases List.mem_append.mp h with h1 | h2
    · rcases List.mem_map.mp h1 with ⟨q, _, rfl⟩
      exact ⟨k, q.1, rfl, by simp⟩
    · obtain ⟨k', p', hp, hk⟩ := ih pv h2
      exact ⟨k', p', hp, by simp [hk]⟩

theorem flattenPE_head_idx : ∀ (es : List Json) (i : Nat) (pv : List Seg × JVal),
    pv ∈ flattenPE es i → ∃ j p', pv.1 = Seg.idx j :: p' ∧ i ≤ j := by
  intro es
  induction es with
  | nil => intro i pv h; simp [flattenPE] at h
  | cons v rest ih =>
    intro i pv h
    rw [flattenPE] at h
    rcases List.mem_append.mp h with h1 | h2
    · rcases List.mem_map.mp h1 with ⟨q, _, rfl⟩
      exact ⟨i, q.1, rfl, le_refl i⟩
    · obtain ⟨j, p', hp, hj⟩ := ih (i + 1) pv h2
      exact ⟨j, p', hp, by omega⟩

end CR2

namespace CR2

mutual
theorem flattenP_inj : ∀ (t1 t2 : Json), goodJson t1 = true → goodJson t2 = true →
    flattenP t1 = flattenP t2 → t1 = t2 := by
  intro t1 t2 hg1 hg2 h
  match t1, t2 with
  | .scalar v1, .scalar v2 =>
    simp only [flattenP, List.cons.injEq, Prod.mk.injEq] at h
    rw [h.1.2]
  | .scalar v1, .obj fs =>
    exfalso
    rw [flattenP, flattenP] at h
    obtain ⟨k, p', hp, _⟩ := flattenPF_head_key fs ([], v1) (h ▸ List.mem_cons_self ..)
    simp at hp
  | .scalar v1, .arr es =>
    exfalso
    rw [flattenP, flattenP] at h
    obtain ⟨j, p', hp, _⟩ := flattenPE_head_idx es 0 ([], v1) (h ▸ List.mem_cons_self ..)
    simp at hp
  | .obj fs, .scalar v2 =>
    exfalso
    rw [flattenP, flattenP] at h
    obtain ⟨k, p', hp, _⟩ := flattenPF_head_key fs ([], v2) (h.symm ▸ List.mem_cons_self ..)
    simp at hp
  | .arr es, .scalar v2 =>
    exfalso
    rw [flattenP, flattenP] at h
    obtain ⟨j, p', hp, _⟩ := flattenPE_head_idx es 0 ([], v2) (h.symm ▸ List.mem_cons_self ..)
    simp at hp
  | .obj fs, .arr es =>
    exfalso
    rw [goodJson] at hg1
    simp only [Bool.and_eq_true] at hg1
    rw [flattenP, flattenP] at h
    have hne := flattenPF_ne_nil fs (by simpa using hg1.1.1) hg1.2
    cases hl : flattenPF fs with
    | nil => exact hne hl
    | cons x xs =>
      obtain ⟨k, p', hpk, _⟩ := flattenPF_head_key fs x (hl ▸ List.mem_cons_self ..)
      obtain ⟨j, q', hpj, _⟩ := flattenPE_head_idx es 0 x (h ▸ hl ▸ List.mem_cons_self ..)
      rw [hpk] at hpj
      simp at hpj
  | .arr es, .obj fs =>
    exfalso
    rw [goodJson] at hg1
    simp only [Bool.and_eq_true] at hg1
    rw [flattenP, flattenP] at h
    have hne := flattenPE_ne_nil es 0 (by simpa using hg1.1) hg1.2
    cases hl : flattenPE es 0 with
    | nil => exact hne hl
    | cons x xs =>
      obtain ⟨j, q', hpj, _⟩ := flattenPE_head_idx es 0 x (hl ▸ List.mem_cons_self ..)
      obtain ⟨k, p', hpk, _⟩ := flattenPF_head_key fs x (h ▸ hl ▸ List.mem_cons_self ..)
      rw [hpk] at hpj
      simp at hpj
  | .obj fs1, .obj fs2 =>
    rw [goodJson] at hg1 hg2
    simp only [Bool.and_eq_true] at hg1 hg2
    rw [flattenP, flattenP] at h
    rw [flattenPF_inj fs1 fs2 hg1.1.2 hg2.1.2 hg1.2 hg2.2 h]
  | .arr es1, .arr es2 =>
    rw [goodJson] at hg1 hg2
    simp only [Bool.and_eq_true] at hg1 hg2
    rw [flattenP, flattenP] at h
    rw [flattenPE_inj es1 es2 0 hg1.2 hg2.2 h]

theorem flattenPF_inj : ∀ (fs1 fs2 : List (String × Json)),
    keysDistinct (fs1.map Prod.fst) = true → keysDistinct (fs2.map Prod.fst) = true →
    goodFields fs1 = true → goodFields fs2 = true →
    flattenPF fs1 = flattenPF fs2 → fs1 = fs2 := by
  intro fs1 fs2 hd1 hd2 hg1 hg2 h
  match fs1, fs2 with
  | [], [] => rfl
  | [], (k2, v2) :: r2 =>
    exfalso
    rw [goodFields] at hg2
    simp only [Bool.and_eq_true] at hg2
    rw [flattenPF, flattenPF] at h
    rcases List.append_eq_nil.mp h.symm with ⟨h1, _⟩
    exact flattenP_ne_nil v2 hg2.1.2 (List.map_eq_nil.mp h1)
  | (k1, v1) :: r1, [] =>
    exfalso
    rw [goodFields] at hg1
    simp only [Bool.and_eq_true] at hg1
    rw [flattenPF, flattenPF] at h
    rcases List.append_eq_nil.mp h with ⟨h1, _⟩
    exact flattenP_ne_nil v1 hg1.1.2 (List.map_eq_nil.mp h1)
  | (k1, v1) :: r1, (k2, v2) :: r2 =>
    rw [goodFields] at hg1 hg2
    simp only [Bool.and_eq_true] at hg1 hg2
    simp only [List.map_cons, keysDistinct, Bool.and_eq_true] at hd1 hd2
    rw [flattenPF, flattenPF] at h
    -- the two leading blocks are nonempty; compare their heads to equate the keys
    have hne1 := flattenP_ne_nil v1 hg1.1.2
    have hne2 := flattenP_ne_nil v2 hg2.1.2
    cases hv1 : flattenP v1 with
    | nil => exact absurd hv1 hne1
    | cons x xs =>
    cases hv2 : flattenP v2 with
    | nil => exact absurd hv2 hne2
    | cons y ys =>
    rw [hv1, hv2] at h
    have hk : k1 = k2 := by
      simp only [List.map_cons, List.cons_append, List.cons.injEq, Prod.mk.injEq] at h
      have := h.1.1
      simp only [List.cons.injEq, Seg.key.injEq] at this
      exact this.1
    subst hk
    rw [← hv1, ← hv2] at h
    have hsplit := append_eq_append_pred (fun pv => ∃ p', pv.1 = Seg.key k1 :: p')
      ((flattenP v1).map (fun pv => (Seg.key k1 :: pv.1, pv.2)))
      (flattenPF r1)
      ((flattenP v2).map (fun pv => (Seg.key k1 :: pv.1, pv.2)))
      (flattenPF r2)
      (by
        intro a ha
        rcases List.mem_map.mp ha with ⟨q, _, rfl⟩
        exact ⟨q.1, rfl⟩)
      (by
        intro a ha
        rcases List.mem_map.mp ha with ⟨q, _, rfl⟩
        exact ⟨q.1, rfl⟩)
      (by
        intro x hx
        obtain ⟨k', p', hp, hkm⟩ := flattenPF_head_key r1 x (List.mem_of_mem_head? hx)
        rintro ⟨p'', hp''⟩
        rw [hp] at hp''
        simp only [List.cons.injEq, Seg.key.injEq] at hp''
        rw [hp''.1] at hkm
        have hnm : k1 ∉ List.map Prod.fst r1 := by simpa using hd1.1
        exact hnm hkm)
      (by
        intro x hx
        obtain ⟨k', p', hp, hkm⟩ := flattenPF_head_key r2 x (List.mem_of_mem_head? hx)
        rintro ⟨p'', hp''⟩
        rw [hp] at hp''
        simp only [List.cons.injEq, Seg.key.injEq] at hp''
        rw [hp''.1] at hkm
        have hnm : k1 ∉ List.map Prod.fst r2 := by simpa using hd2.1
        exact hnm hkm)
      h
    have hv := flattenP_inj v1 v2 hg1.1.2 hg2.1.2 (map_consSeg_inj hsplit.1)
    have hr := flattenPF_inj r1 r2 hd1.2 hd2.2 hg1.2 hg2.2 hsplit.2
    rw [hv, hr]

theorem flattenPE_inj : ∀ (es1 es2 : List Json) (i : Nat),
    goodElems es1 = true → goodElems es2 = true →
    flattenPE es1 i = flattenPE es2 i → es1 = es2 := by
  intro es1 es2 i hg1 hg2 h
  match es1, es2 with
  | [], [] => rfl
  | [], v2 :: r2 =>
    exfalso
    rw [goodElems] at hg2
    simp only [Bool.and_eq_true] at hg2
    rw [flattenPE, flattenPE] at h
    rcases List.append_eq_nil.mp h.symm with ⟨h1, _⟩
    exact flattenP_ne_nil v2 hg2.1 (List.map_eq_nil.mp h1)
  | v1 :: r1, [] =>
    exfalso
    rw [goodElems] at hg1
    simp only [Bool.and_eq_true] at hg1
    rw [flattenPE, flattenPE] at h
    rcases List.append_eq_nil.mp h with ⟨h1, _⟩
    exact flattenP_ne_nil v1 hg1.1 (List.map_eq_nil.mp h1)
  | v1 :: r1, v2 :: r2 =>
    rw [goodElems] at hg1 hg2
    simp only [Bool.and_eq_true] at hg1 hg2
    rw [flattenPE, flattenPE] at h
    have hsplit := append_eq_append_pred (fun pv => ∃ p', pv.1 = Seg.idx i :: p')
      ((flattenP v1).map (fun pv => (Seg.idx i :: pv.1, pv.2)))
      (flattenPE r1 (i + 1))
      ((flattenP v2).map (fun pv => (Seg.idx i :: pv.1, pv.2)))
      (flattenPE r2 (i + 1))
      (by
        intro a ha
        rcases List.mem_map.mp ha with ⟨q, _, rfl⟩
        exact ⟨q.1, rfl⟩)
      (by
        intro a ha
        rcases List.mem_map.mp ha with ⟨q, _, rfl⟩
        exact ⟨q.1, rfl⟩)
      (by
        intro x hx
        obtain ⟨j, p', hp, hj⟩ := flattenPE_head_idx r1 (i + 1) x (List.mem_of_mem_head? hx)
        rintro ⟨p'', hp''⟩
        rw [hp] at hp''
        simp only [List.cons.injEq, Seg.idx.injEq] at hp''
        omega)
      (by
        intro x hx
        obtain ⟨j, p', hp, hj⟩ := flattenPE_head_idx r2 (i + 1) x (List.mem_of_mem_head? hx)
        rintro ⟨p'', hp''⟩
        rw [hp] at hp''
        simp only [List.cons.injEq, Seg.idx.injEq] at hp''
        omega)
      h
    have hv := flattenP_inj v1 v2 hg1.1 hg2.1 (map_consSeg_inj hsplit.1)
    have hr := flattenPE_inj r1 r2 (i + 1) hg1.2 hg2.2 hsplit.2
    rw [hv, hr]
end

end CR2

namespace CR2

mutual
theorem flattenP_paths_good : ∀ (t : Json), goodJson t = true →
    ∀ pv ∈ flattenP t, goodPath pv.1 = true := by
  intro t hg pv hm
  match t with
  | .scalar v =>
    rw [flattenP] at hm
    simp only [List.mem_singleton] at hm
    subst hm
    rfl
  | .obj fs =>
    rw [goodJson] at hg
    simp only [Bool.and_eq_true] at hg
    rw [flattenP] at hm
    exact flattenPF_paths_good fs hg.2 pv hm
  | .arr es =>
    rw [goodJson] at hg
    simp only [Bool.and_eq_true] at hg
    rw [flattenP] at hm
    exact flattenPE_paths_good es 0 hg.2 pv hm

theorem flattenPF_paths_good : ∀ (fs : List (String × Json)), goodFields fs = true →
    ∀ pv ∈ flattenPF fs, goodPath pv.1 = true := by
  intro fs hg pv hm
  match fs with
  | [] => simp [flattenPF] at hm
  | (k, v) :: rest =>
    rw [goodFields] at hg
    simp only [Bool.and_eq_true] at hg
    rw [flattenPF] at hm
    rcases List.mem_append.mp hm with h1 | h2
    · rcases List.mem_map.mp h1 with ⟨q, hq, rfl⟩
      have := flattenP_paths_good v hg.1.2 q hq
      simp only [goodPath, Bool.and_eq_true]
      exact ⟨hg.1.1, this⟩
    · exact flattenPF_paths_good rest hg.2 pv h2

theorem flattenPE_paths_good : ∀ (es : List Json) (i : Nat), goodElems es = true →
    ∀ pv ∈ flattenPE es i, goodPath pv.1 = true := by
  intro es i hg pv hm
  match es with
  | [] => simp [flattenPE] at hm
  | v :: rest =>
    rw [goodElems] at hg
    simp only [Bool.and_eq_true] at hg
    rw [flattenPE] at hm
    rcases List.mem_append.mp hm with h1 | h2
    · rcases List.mem_map.mp h1 with ⟨q, hq, rfl⟩
      exact flattenP_paths_good v hg.1 q hq
    · exact flattenPE_paths_good rest (i + 1) hg.2 pv h2
end

/-! ## Lemmas: decimal rendering of array indices (claim C3, string phase) -/

theorem digitChar_inj_lt10 {d e : Nat} (hd : d < 10) (he : e < 10)
    (h : Nat.digitChar d = Nat.digitChar e) : d = e := by
  interval_cases d <;> interval_cases e <;> revert h <;> decide

theorem map_digitChar_inj : ∀ {l1 l2 : List Nat}, (∀ d ∈ l1, d < 10) → (∀ d ∈ l2, d < 10) →
    l1.map Nat.digitChar = l2.map Nat.digitChar → l1 = l2 := by
  intro l1
  induction l1 with
  | nil => intro l2 _ _ h; cases l2 <;> simp_all
  | cons d l1' ih =>
    intro l2 h1 h2 h
    cases l2 with
    | nil => simp at h
    | cons e l2' =>
      simp only [List.map_cons, List.cons.injEq] at h
      have hde := digitChar_inj_lt10 (h1 d (by simp)) (h2 e (by simp)) h.1
      rw [hde, ih (fun x hx => h1 x (by simp [hx])) (fun x hx => h2 x (by simp [hx])) h.2]

theorem toDigitsCore_eq_digits : ∀ (fuel n : Nat) (ds : List Char), 0 < n → n ≤ fuel →
    Nat.toDigitsCore 10 fuel n ds = ((Nat.digits 10 n).map Nat.digitChar).reverse ++ ds := by
  intro fuel
  induction fuel with
  | zero => intro n ds h1 h2; omega
  | succ fuel ih =>
    intro n ds h1 h2
    rw [Nat.toDigitsCore]
    rw [Nat.digits_def' (by norm_num : (1 : Nat) < 10) h1]
    simp only [List.map_cons, List.reverse_cons]
    by_cases hq : n / 10 = 0
    · rw [if_pos hq, hq]
      simp
    · rw [if_neg hq]
      rw [ih (n / 10) (Nat.digitChar (n % 10) :: ds) (Nat.pos_of_ne_zero hq) (by omega)]
      simp

theorem nat_repr_data_pos {n : Nat} (h : 0 < n) :
    (Nat.repr n).data = ((Nat.digits 10 n).map Nat.digitChar).reverse := by
  rw [Nat.repr, Nat.toDigits]
  rw [toDigitsCore_eq_digits (n + 1) n [] h (by omega)]
  simp [List.asString]

theorem nat_repr_digits : ∀ (n : Nat), ∀ c ∈ (Nat.repr n).data, c.isDigit = true := by
  intro n c hc
  rcases Nat.eq_zero_or_pos n with rfl | hpos
  · simp only [show (Nat.repr 0).data = ['0'] from rfl, List.mem_singleton] at hc
    subst hc
    decide
  · rw [nat_repr_data_pos hpos] at hc
    rw [List.mem_reverse] at hc
    rcases List.mem_map.mp hc with ⟨d, hd, rfl⟩
    have : d < 10 := Nat.digits_lt_base (by norm_num) hd
    interval_cases d <;> decide

theorem nat_repr_injective : ∀ {a b : Nat}, Nat.repr a = Nat.repr b → a = b := by
  intro a b h
  have hdata : (Nat.repr a).data = (Nat.repr b).data := by rw [h]
  rcases Nat.eq_zero_or_pos a with rfl | hpa <;> rcases Nat.eq_zero_or_pos b with rfl | hpb
  · rfl
  · exfalso
    rw [show (Nat.repr 0).data = ['0'] from rfl, nat_repr_data_pos hpb] at hdata
    have : Nat.digits 10 b = [0] := by
      have hrev := congrArg List.reverse hdata
      simp only [List.reverse_reverse, List.reverse_singleton] at hrev
      have := @map_digitChar_inj (Nat.digits 10 b) [0]
        (fun d hd => Nat.digits_lt_base (by norm_num) hd) (by simp)
        (by rw [← hrev]; rfl)
      exact this
    have hb := Nat.ofDigits_digits 10 b
    rw [this] at hb
    simp [Nat.ofDigits] at hb
    omega
  · exfalso
    rw [show (Nat.repr 0).data = ['0'] from rfl, nat_repr_data_pos hpa] at hdata
    have : Nat.digits 10 a = [0] := by
      have hrev := congrArg List.reverse hdata.symm
      simp only [List.reverse_reverse, List.reverse_singleton] at hrev
      exact @map_digitChar_inj (Nat.digits 10 a) [0]
        (fun d hd => Nat.digits_lt_base (by norm_num) hd) (by simp)
        (by rw [← hrev]; rfl)
    have ha := Nat.ofDigits_digits 10 a
    rw [this] at ha
    simp [Nat.ofDigits] at ha
    omega
  · rw [nat_repr_data_pos hpa, nat_repr_data_pos hpb] at hdata
    have hrev := congrArg List.reverse hdata
    simp only [List.reverse_reverse] at hrev
    have hdig := map_digitChar_inj
      (fun d hd => Nat.digits_lt_base (by norm_num) hd)
      (fun d hd => Nat.digits_lt_base (by norm_num) hd) hrev
    have ha := Nat.ofDigits_digits 10 a
    rw [hdig, Nat.ofDigits_digits] at ha
    exact ha.symm

end CR2

namespace CR2

/-! ## Lemmas: rendered paths are uniquely decodable (claim C3, string phase) -/

theorem str_data_ne_nil {s : String} (h : s ≠ "") : s.data ≠ [] := by
  intro hd
  exact h (String.ext hd)

theorem isDigit_sepFree {c : Char} (h : c.isDigit = true) : sepFree c = true := by
  by_cases h1 : c = '.'
  · subst h1; exact absurd h (by decide)
  by_cases h2 : c = '['
  · subst h2; exact absurd h (by decide)
  by_cases h3 : c = ']'
  · subst h3; exact absurd h (by decide)
  simp [sepFree, h1, h2, h3]

theorem isDigit_ne_rbracket {c : Char} (h : c.isDigit = true) : c ≠ ']' := by
  intro h1
  subst h1
  exact absurd h (by decide)

theorem sepFree_spec {c : Char} (h : sepFree c = true) : c ≠ '.' ∧ c ≠ '[' ∧ c ≠ ']' := by
  rw [sepFree] at h
  simp only [Bool.and_eq_true, bne_iff_ne, ne_eq, decide_eq_true_eq] at h
  tauto

theorem goodKey_spec {k : String} (h : goodKey k = true) :
    k.data ≠ [] ∧ ∀ c ∈ k.data, sepFree c = true := by
  rw [goodKey] at h
  simp only [Bool.and_eq_true, Bool.not_eq_true', List.isEmpty_eq_false_iff_exists_mem,
    List.all_eq_true] at h
  constructor
  · intro hnil
    rcases h.1 with ⟨x, hx⟩
    rw [hnil] at hx
    simp at hx
  · exact h.2

theorem toString_nat_eq (i : Nat) : toString i = Nat.repr i := rfl

theorem render_data_of_ne : ∀ (segs : List Seg) (p : String), p ≠ "" →
    (render p segs).data = p.data ++ toks false segs := by
  intro segs
  induction segs with
  | nil => intro p hp; simp [render, toks]
  | cons s r ih =>
    intro p hp
    cases s with
    | key k =>
      rw [render, toks, mkObjKey, if_neg hp]
      have hne : p ++ "." ++ k ≠ "" := by
        intro hc
        have hd := congrArg String.data hc
        simp only [String.data_append] at hd
        rcases List.append_eq_nil.mp hd with ⟨hd1, _⟩
        rcases List.append_eq_nil.mp hd1 with ⟨_, hd3⟩
        exact absurd hd3 (by decide)
      rw [ih _ hne]
      simp [String.data_append, List.append_assoc]
    | idx i =>
      rw [render, toks]
      have hne : p ++ "[" ++ toString i ++ "]" ≠ "" := by
        intro hc
        have hd := congrArg String.data hc
        simp only [String.data_append] at hd
        rcases List.append_eq_nil.mp hd with ⟨_, hd2⟩
        exact absurd hd2 (by decide)
      rw [ih _ hne]
      simp [String.data_append, List.append_assoc, toString_nat_eq]

theorem render_data_empty : ∀ (segs : List Seg), goodPath segs = true →
    (render "" segs).data = toks true segs := by
  intro segs hg
  cases segs with
  | nil => simp [render, toks]
  | cons s r =>
    cases s with
    | key k =>
      rw [goodPath] at hg
      simp only [Bool.and_eq_true] at hg
      rw [render, toks, mkObjKey, if_pos rfl]
      have hk := (goodKey_spec hg.1).1
      have hkne : k ≠ "" := fun hc => hk (by rw [hc])
      rw [render_data_of_ne r k hkne]
      simp
    | idx i =>
      rw [render, toks]
      have hne : "" ++ "[" ++ toString i ++ "]" ≠ "" := by
        intro hc
        have hd := congrArg String.data hc
        simp only [String.data_append] at hd
        rcases List.append_eq_nil.mp hd with ⟨_, hd2⟩
        exact absurd hd2 (by decide)
      rw [render_data_of_ne r _ hne]
      simp [String.data_append, toString_nat_eq]

theorem toks_head_sep : ∀ (r : List Seg) (x : Char), (toks false r).head? = some x →
    x = '.' ∨ x = '[' := by
  intro r x h
  match r with
  | [] => simp [toks] at h
  | .key k :: r' =>
    rw [toks] at h
    simp only [if_neg Bool.false_ne_true, List.cons_append, List.head?_cons,
      Option.some.injEq] at h
    exact Or.inl h.symm
  | .idx i :: r' =>
    rw [toks] at h
    simp only [List.head?_cons, Option.some.injEq] at h
    exact Or.inr h.symm

theorem toks_ne_nil : ∀ (s : Seg) (r : List Seg) (first : Bool), goodPath (s :: r) = true →
    toks first (s :: r) ≠ [] := by
  intro s r first hg
  cases s with
  | key k =>
    rw [goodPath] at hg
    simp only [Bool.and_eq_true] at hg
    have hk := (goodKey_spec hg.1).1
    rw [toks]
    cases first
    · simp
    · simp [hk]
  | idx i =>
    rw [toks]
    simp

end CR2

namespace CR2

theorem toks_inj : ∀ (p1 p2 : List Seg) (first : Bool),
    goodPath p1 = true → goodPath p2 = true →
    toks first p1 = toks first p2 → p1 = p2 := by
  intro p1
  induction p1 with
  | nil =>
    intro p2 first _ hg2 h
    cases p2 with
    | nil => rfl
    | cons s r =>
      rw [show toks first ([] : List Seg) = [] from rfl] at h
      exact absurd h.symm (toks_ne_nil s r first hg2)
  | cons s1 r1 ih =>
    intro p2 first hg1 hg2 h
    cases p2 with
    | nil =>
      rw [show toks first ([] : List Seg) = [] from rfl] at h
      exact absurd h (toks_ne_nil s1 r1 first hg1)
    | cons s2 r2 =>
      cases s1 with
      | key k1 =>
        cases s2 with
        | key k2 =>
          rw [goodPath] at hg1 hg2
          simp only [Bool.and_eq_true] at hg1 hg2
          rw [toks, toks] at h
          have h' : k1.data ++ toks false r1 = k2.data ++ toks false r2 := by
            cases first
            · simpa using h
            · simpa using h
          have hsplit := append_eq_append_pred (fun c => sepFree c = true)
            k1.data (toks false r1) k2.data (toks false r2)
            ((goodKey_spec hg1.1).2) ((goodKey_spec hg2.1).2)
            (fun x hx => by
              rcases toks_head_sep r1 x (Option.mem_def.mp hx) with rfl | rfl <;> decide)
            (fun x hx => by
              rcases toks_head_sep r2 x (Option.mem_def.mp hx) with rfl | rfl <;> decide)
            h'
          rw [String.ext hsplit.1, ih r2 false hg1.2 hg2.2 hsplit.2]
        | idx i2 =>
          exfalso
          rw [goodPath] at hg1
          simp only [Bool.and_eq_true] at hg1
          rw [toks, toks] at h
          cases first
          · simp at h
          · obtain ⟨hne, hall⟩ := goodKey_spec hg1.1
            cases hk1 : k1.data with
            | nil => exact hne hk1
            | cons c cs =>
              rw [hk1] at h
              simp only [if_pos, List.nil_append, List.cons_append, List.cons.injEq] at h
              exact (sepFree_spec (hall c (by rw [hk1]; exact List.mem_cons_self ..))).2.1 h.1
      | idx i1 =>
        cases s2 with
        | key k2 =>
          exfalso
          rw [goodPath] at hg2
          simp only [Bool.and_eq_true] at hg2
          rw [toks, toks] at h
          cases first
          · simp at h
          · obtain ⟨hne, hall⟩ := goodKey_spec hg2.1
            cases hk2 : k2.data with
            | nil => exact hne hk2
            | cons c cs =>
              rw [hk2] at h
              simp only [if_pos, List.nil_append, List.cons_append, List.cons.injEq] at h
              exact (sepFree_spec (hall c (by rw [hk2]; exact List.mem_cons_self ..))).2.1 h.1.symm
        | idx i2 =>
          rw [goodPath] at hg1 hg2
          rw [toks, toks] at h
          simp only [List.cons.injEq, true_and] at h
          have hsplit := append_eq_append_pred (fun c => c ≠ ']')
            (Nat.repr i1).data (']' :: toks false r1)
            (Nat.repr i2).data (']' :: toks false r2)
            (fun c hc => isDigit_ne_rbracket (nat_repr_digits i1 c hc))
            (fun c hc => isDigit_ne_rbracket (nat_repr_digits i2 c hc))
            (by intro x hx; simp_all; exact hx.symm)
            (by intro x hx; simp_all; exact hx.symm)
            h
          have ht := hsplit.2
          simp only [List.cons.injEq, true_and] at ht
          rw [nat_repr_injective (String.ext hsplit.1), ih r2 false hg1 hg2 ht]

theorem render_inj {p1 p2 : List Seg} (hg1 : goodPath p1 = true) (hg2 : goodPath p2 = true)
    (h : render "" p1 = render "" p2) : p1 = p2 := by
  have hd := congrArg String.data h
  rw [render_data_empty p1 hg1, render_data_empty p2 hg2] at hd
  exact toks_inj p1 p2 true hg1 hg2 hd

end CR2

namespace CR2

mutual
theorem flatten_eq_renderP : ∀ (t : Json) (p : String),
    flatten_json "." t p = (flattenP t).map (fun pv => (render p pv.1, pv.2)) := by
  intro t p
  match t with
  | .scalar v => rw [flatten_json, flattenP]; rfl
  | .obj fs => rw [flatten_json, flattenP]; exact flattenFields_eq_renderPF fs p
  | .arr es => rw [flatten_json, flattenP]; exact flattenElems_eq_renderPE es p 0

theorem flattenFields_eq_renderPF : ∀ (fs : List (String × Json)) (p : String),
    flattenFields "." fs p = (flattenPF fs).map (fun pv => (render p pv.1, pv.2)) := by
  intro fs p
  match fs with
  | [] => rw [flattenFields, flattenPF]; rfl
  | (k, v) :: rest =>
    rw [flattenFields, flattenPF, List.map_append, List.map_map]
    rw [flatten_eq_renderP v (mkObjKey "." p k), flattenFields_eq_renderPF rest p]
    rfl

theorem flattenElems_eq_renderPE : ∀ (es : List Json) (p : String) (i : Nat),
    flattenElems "." es p i = (flattenPE es i).map (fun pv => (render p pv.1, pv.2)) := by
  intro es p i
  match es with
  | [] => rw [flattenElems, flattenPE]; rfl
  | v :: rest =>
    rw [flattenElems, flattenPE, List.map_append, List.map_map]
    rw [flatten_eq_renderP v (p ++ "[" ++ toString i ++ "]"),
      flattenElems_eq_renderPE rest p (i + 1)]
    rfl
end

theorem map_render_pair_inj : ∀ (l1 l2 : List (List Seg × JVal)),
    (∀ pv ∈ l1, goodPath pv.1 = true) → (∀ pv ∈ l2, goodPath pv.1 = true) →
    l1.map (fun pv => (render "" pv.1, pv.2)) = l2.map (fun pv => (render "" pv.1, pv.2)) →
    l1 = l2 := by
  intro l1
  induction l1 with
  | nil => intro l2 _ _ h; cases l2 <;> simp_all
  | cons x xs ih =>
    intro l2 h1 h2 h
    cases l2 with
    | nil => simp at h
    | cons y ys =>
      simp only [List.map_cons, List.cons.injEq, Prod.mk.injEq] at h
      have hx := render_inj (h1 x (by simp)) (h2 y (by simp)) h.1.1
      have : xs = ys := ih ys (fun pv hpv => h1 pv (by simp [hpv]))
        (fun pv hpv => h2 pv (by simp [hpv])) h.2
      subst this
      cases x; cases y
      simp_all

/-- C3 (amended): on documents without empty objects or arrays, with unique object
keys, every key nonempty and free of the separator characters `'.'`, `'['`, `']'`,
`flatten_json` is injective — the flattened path-to-scalar map determines the
original tree, so a reconstruction function exists and the round-trip law holds on
this class (the counterexample shows it cannot hold on all documents). -/
theorem c3_flatten_injective_on_good (t1 t2 : Json)
    (hg1 : goodJson t1 = true) (hg2 : goodJson t2 = true)
    (h : flatten_json "." t1 "" = flatten_json "." t2 "") : t1 = t2 := by
  rw [flatten_eq_renderP t1 "", flatten_eq_renderP t2 ""] at h
  exact flattenP_inj t1 t2 hg1 hg2
    (map_render_pair_inj (flattenP t1) (flattenP t2)
      (fun pv hpv => flattenP_paths_good t1 hg1 pv hpv)
      (fun pv hpv => flattenP_paths_good t2 hg2 pv hpv) h)

/-- C3 witness: the sample document is in the good class and the theorem applies to
it (with the trivially equal flattening on both sides). -/
theorem c3_flatten_injective_on_good_witness :
    goodJson sampleGoodJson = true ∧ sampleGoodJson = sampleGoodJson :=
  ⟨rfl, c3_flatten_injective_on_good sampleGoodJson sampleGoodJson rfl rfl rfl⟩

end CR2

namespace CR2

/-! ## Lemmas: the field-mapping interpreter -/

/-- Any non-dict field configuration is returned verbatim (mapping_program.py:252). -/
theorem pfm_non_dict (v : PyVal) (row : Record) (la : LegAssignments) (ctx : Ctx)
    (source : String) (config : Config) (h : v.isDict = false) :
    process_field_mapping v row la ctx source config = .ok v := by
  cases v <;> first
    | rfl
    | (rw [PyVal.isDict] at h; exact absurd h (by simp))

theorem process_entries_scalar : ∀ (entries : List (String × PyVal)) (row : Record)
    (la : LegAssignments) (ctx : Ctx) (source : String) (config : Config),
    (∀ kv ∈ entries, kv.2.isDict = false) →
    process_entries entries row la ctx source config = .ok entries := by
  intro entries
  induction entries with
  | nil => intro row la ctx source config _; rfl
  | cons kv rest ih =>
    intro row la ctx source config h
    obtain ⟨k, v⟩ := kv
    rw [process_entries]
    rw [pfm_non_dict v row la ctx source config (h (k, v) (by simp))]
    rw [ih row la ctx source config (fun kv hm => h kv (by simp [hm]))]
    rfl

end CR2

namespace CR2

theorem pvGet_map_set_ne : ∀ (d : List (String × PyVal)) (kS : String) (v : PyVal)
    (k : String), kS ≠ k →
    pvGet (d.map (fun kv => if kv.1 = kS then (kS, v) else kv)) k = pvGet d k := by
  intro d kS v k h
  induction d with
  | nil => rfl
  | cons kv rest ih =>
    rw [List.map_cons]
    by_cases hk1 : kv.1 = kS
    · rw [if_pos hk1]
      rw [pvGet, pvGet]
      rw [List.find?_cons_of_neg _ (by simpa using h),
        List.find?_cons_of_neg _ (by simpa using hk1 ▸ h)]
      exact ih
    · rw [if_neg hk1]
      by_cases hk2 : kv.1 = k
      · rw [pvGet, pvGet, List.find?_cons_of_pos _ (by simpa using hk2),
          List.find?_cons_of_pos _ (by simpa using hk2)]
      · rw [pvGet, pvGet, List.find?_cons_of_neg _ (by simpa using hk2),
          List.find?_cons_of_neg _ (by simpa using hk2)]
        exact ih

theorem pvGet_append_single_ne : ∀ (d : List (String × PyVal)) (kS : String) (v : PyVal)
    (k : String), kS ≠ k → pvGet (d ++ [(kS, v)]) k = pvGet d k := by
  intro d kS v k h
  induction d with
  | nil =>
    rw [List.nil_append, pvGet, List.find?_cons_of_neg _ (by simpa using h)]
    rfl
  | cons kv rest ih =>
    rw [List.cons_append]
    by_cases hk2 : kv.1 = k
    · rw [pvGet, pvGet, List.find?_cons_of_pos _ (by simpa using hk2),
        List.find?_cons_of_pos _ (by simpa using hk2)]
    · rw [pvGet, pvGet, List.find?_cons_of_neg _ (by simpa using hk2),
        List.find?_cons_of_neg _ (by simpa using hk2)]
      exact ih

theorem pvGet_dictSetPv_ne (d : List (String × PyVal)) (kS : String) (v : PyVal)
    (k : String) (h : kS ≠ k) : pvGet (dictSetPv d kS v) k = pvGet d k := by
  rw [dictSetPv]
  by_cases ha : d.any (fun kv => kv.1 = kS)
  · rw [if_pos ha]
    exact pvGet_map_set_ne d kS v k h
  · rw [if_neg ha]
    exact pvGet_append_single_ne d kS v k h

theorem pvGet_dictUpdatePv : ∀ (add d : List (String × PyVal)) (k : String),
    (∀ kv ∈ add, kv.1 ≠ k) → pvGet (dictUpdatePv d add) k = pvGet d k := by
  intro add
  induction add with
  | nil => intro d k _; rfl
  | cons kv rest ih =>
    intro d k h
    rw [dictUpdatePv, List.foldl_cons]
    rw [show List.foldl (fun acc kv => dictSetPv acc kv.1 kv.2) (dictSetPv d kv.1 kv.2) rest
      = dictUpdatePv (dictSetPv d kv.1 kv.2) rest from rfl]
    rw [ih (dictSetPv d kv.1 kv.2) k (fun x hx => h x (by simp [hx]))]
    exact pvGet_dictSetPv_ne d kv.1 kv.2 k (h kv (by simp))

theorem tryAlternatives_none : ∀ (l : List String) (inf s : String),
    (∀ f ∈ l, pyStrptime f s = Option.none) → tryAlternatives inf s l = s := by
  intro l
  induction l with
  | nil => intro inf s _; rfl
  | cons f rest ih =>
    intro inf s h
    rw [tryAlternatives]
    by_cases hf : f ≠ inf
    · rw [if_pos hf, h f (by simp)]
      exact ih inf s (fun g hg => h g (by simp [hg]))
    · rw [if_neg hf]
      exact ih inf s (fun g hg => h g (by simp [hg]))

theorem build_legs_length : ∀ (config : Config) (source : String) (row : Record)
    (la : LegAssignments) (legs : List (List (String × PyVal))),
    build_legs config source row la = .ok legs → legs.length ≤ 2 := by
  intro config source row la legs h
  rw [build_legs] at h
  cases hr : la.receive_leg_source with
  | none =>
    rw [hr] at h
    cases hp : la.pay_leg_source with
    | none =>
      rw [hp] at h
      try simp only [] at h
      try simp only [Except.bind] at h
      cases h
      simp
    | some j =>
      rw [hp] at h
      try simp only [] at h
      try simp only [Except.bind] at h
      cases hb : build_single_leg config source row j false la with
      | ok add =>
        rw [hb] at h
        try simp only [Except.bind] at h
        cases h
        simp
      | error e =>
        rw [hb] at h
        try simp only [Except.bind] at h
        cases h
  | some i =>
    rw [hr] at h
    try simp only [] at h
    try simp only [Except.bind] at h
    cases hbR : build_single_leg config source row i true la with
    | error e =>
      rw [hbR] at h
      try simp only [Except.bind] at h
      cases h
    | ok addR =>
      rw [hbR] at h
      try simp only [Except.bind] at h
      cases hp : la.pay_leg_source with
      | none =>
        rw [hp] at h
        try simp only [] at h
        try simp only [Except.bind] at h
        cases h
        simp
      | some j =>
        rw [hp] at h
        try simp only [] at h
        try simp only [Except.bind] at h
        cases hbP : build_single_leg config source row j false la with
        | error e =>
          rw [hbP] at h
          try simp only [Except.bind] at h
          cases h
        | ok addP =>
          rw [hbP] at h
          try simp only [Except.bind] at h
          cases h
          simp

end CR2

namespace CR2

theorem exbind_ok {α β : Type} (a : α) (f : α → Except String β) :
    (Except.ok a : Except String α) >>= f = f a := rfl

theorem exbind_error {α β : Type} (e : String) (f : α → Except String β) :
    (Except.error e : Except String α) >>= f = (Except.error e : Except String β) := rfl

/-- C6: for every configuration, source tag and record, `transform(record)` either
yields a trade whose legs list has length at most 2, or `None` (the catch-all turns
every raised error into `None` with a logged reason); the embedding is a total
function, so no uncaught exception escapes. -/
theorem c6_transform_safe (config : Config) (source : String) (row : Record)
    (t : Trade) (h : transform_single_trade config source row = some t) :
    t.legs.length ≤ 2 := by
  rw [transform_single_trade] at h
  cases hla : determine_leg_assignments config row with
  | error e =>
    rw [hla] at h
    simp only [exbind_error] at h
    cases h
  | ok la =>
    rw [hla] at h
    simp only [exbind_ok] at h
    cases hh : build_header config source row la with
    | error e =>
      rw [hh] at h
      simp only [exbind_error] at h
      cases h
    | ok hdr =>
      rw [hh] at h
      simp only [exbind_ok] at h
      cases hl : build_legs config source row la with
      | error e =>
        rw [hl] at h
        simp only [exbind_error] at h
        cases h
      | ok legs =>
        rw [hl] at h
        simp only [exbind_ok] at h
        try simp only [] at h
        cases h
        exact build_legs_length config source row la legs hl

/-- C6 witness: on the empty configuration and empty record, the transform yields a
trade (with no legs), and the theorem bounds its leg count. -/
theorem c6_transform_safe_witness :
    transform_single_trade [] "banco" [] = some { header := [], legs := [] }
  ∧ ({ header := [], legs := [] } : Trade).legs.length ≤ 2 :=
  ⟨rfl, c6_transform_safe [] "banco" [] { header := [], legs := [] } rfl⟩

/-- C7: the date transformation is a total function (the embedding returns a string
for every input, as `_transform_date` never raises): the concrete example
`"2025-09-17"` under configured format `YYYY-MM-DD` renders as `"17/09/2025"`, and
any string that parses under neither the configured format nor any fallback format is
returned unchanged. -/
theorem c7_date_transform :
    transform_date cfgYMD "2025-09-17" = "17/09/2025"
  ∧ (∀ (config : Config) (s : String),
      pyStrptime (configuredDateFormat config) s = Option.none →
      (∀ f ∈ alternative_formats, pyStrptime f s = Option.none) →
      transform_date config s = s) := by
  refine ⟨rfl, ?_⟩
  intro config s h1 h2
  by_cases hs : s = ""
  · rw [transform_date, if_pos hs, hs]
  · rw [transform_date, if_neg hs]
    simp only [h1]
    exact tryAlternatives_none alternative_formats (configuredDateFormat config) s h2

/-- C7 witness: the string `"garbage"` parses under no format and is returned
unchanged, via the theorem. -/
theorem c7_date_transform_witness : transform_date cfgYMD "garbage" = "garbage" :=
  c7_date_transform.2 cfgYMD "garbage" rfl (by decide)

end CR2

namespace CR2

/-- C8: every table-driven transformation is strict: for a transformation name `t`
outside the built-in structural kinds whose table is configured, a value in the table
maps to its table entry and a value outside it fails with the `ValueError` naming the
unknown code; concretely, the hardcoded settlement mapping sends `"C"` to `"CASH"`
and `"E"` to `"PHYSICAL"` and rejects `"X"`, and the same holds through
`_apply_transformation` with the configured `settlement_type` table. -/
theorem c8_table_transform :
    (∀ (config : Config) (trD m : List (String × PyVal)) (t v : String),
      pvGetD config "transformations" (.dict []) = .dict trD →
      pvGet trD t = some (.dict m) →
      t ≠ "date_format" → t ≠ "integer" → t ≠ "float" → t ≠ "notional" →
      t ≠ "fx_fixing_lag" →
      (∀ r, pvGet m v = some r → apply_transformation v (.str t) config = .ok r)
      ∧ (pvGet m v = Option.none →
          apply_transformation v (.str t) config
            = .error ("ValueError: Unknown " ++ t ++ ": " ++ v)))
  ∧ transform_settlement_type "C" = .ok "CASH"
  ∧ transform_settlement_type "E" = .ok "PHYSICAL"
  ∧ transform_settlement_type "X" = .error "ValueError: Unknown settlement mechanism: X"
  ∧ apply_transformation "C" (.str "settlement_type") cfgSettle = .ok (.str "CASH")
  ∧ apply_transformation "E" (.str "settlement_type") cfgSettle = .ok (.str "PHYSICAL")
  ∧ apply_transformation "X" (.str "settlement_type") cfgSettle
      = .error "ValueError: Unknown settlement_type: X" := by
  refine ⟨?_, rfl, rfl, rfl, rfl, rfl, rfl⟩
  intro config trD m t v htr hm ht1 ht2 ht3 ht4 ht5
  have hbase : apply_transformation v (.str t) config
      = (if (pvHasKey m v : Bool) then
          match pvGet m v with
          | some r => Except.ok r
          | Option.none => Except.error ("KeyError: " ++ v)
        else Except.error ("ValueError: Unknown " ++ t ++ ": " ++ v)) := by
    rw [apply_transformation]
    rw [htr]
    rw [if_neg ht1, if_neg ht2, if_neg ht3, if_neg ht4, if_neg ht5]
    rw [show pyContainsStr (.dict trD) t = .ok (pvHasKey trD t) from rfl]
    simp only [exbind_ok]
    rw [if_pos (by rw [pvHasKey, hm]; rfl)]
    rw [show pvIndex (.dict trD) t = (match pvGet trD t with
      | some r => Except.ok r
      | Option.none => Except.error ("KeyError: " ++ t)) from rfl]
    rw [hm]
    simp only [exbind_ok]
    rw [show pyContainsStr (.dict m) v = .ok (pvHasKey m v) from rfl]
    simp only [exbind_ok]
    rw [show pvIndex (.dict m) v = (match pvGet m v with
      | some r => Except.ok r
      | Option.none => Except.error ("KeyError: " ++ v)) from rfl]
  constructor
  · intro r hr
    rw [hbase, if_pos (by rw [pvHasKey, hr]; rfl), hr]
  · intro hnone
    rw [hbase, if_neg (by rw [pvHasKey, hnone]; exact Bool.false_ne_true)]

/-- C8 witness: the theorem instantiated with the configured settlement table rejects
the unknown code `"X"` with the error naming it. -/
theorem c8_table_transform_witness :
    apply_transformation "X" (.str "settlement_type") cfgSettle
      = .error "ValueError: Unknown settlement_type: X" :=
  ((c8_table_transform.1 cfgSettle
      [("settlement_type", .dict [("C", .str "CASH"), ("E", .str "PHYSICAL")])]
      [("C", .str "CASH"), ("E", .str "PHYSICAL")] "settlement_type" "X"
      rfl rfl (by decide) (by decide) (by decide) (by decide) (by decide)).2) rfl

end CR2

namespace CR2

/-- C10: the interpreter's final fall-through returns the configuration verbatim:
any non-dict rule value is returned as the field value, and a `source_fields`
rule whose primary field resolves, is present in the record but empty, and which
configures no fallback (and carries no other recognised branch key) also returns the
whole configuration dict itself as the value, rather than failing. -/
theorem c10_fallthrough_verbatim :
    (∀ (v : PyVal) (row : Record) (la : LegAssignments) (ctx : Ctx) (source : String)
      (config : Config), v.isDict = false →
      process_field_mapping v row la ctx source config = .ok v)
  ∧ (∀ (cfg sf : List (String × PyVal)) (row : Record) (la : LegAssignments)
      (ctx : Ctx) (source : String) (config : Config) (p pf : String),
      pvGet cfg "source_fields" = some (.dict sf) →
      pvGet sf "primary" = some (.str p) →
      resolve_field_template (.str p) (some la) ctx = .ok pf →
      rowGet row pf = some "" →
      pvHasKey sf "fallback" = false →
      pvHasKey cfg "calculation_type" = false →
      pvHasKey cfg "static_value" = false →
      pvHasKey cfg "dynamic_value" = false →
      pvHasKey cfg "source_field" = false →
      pvHasKey cfg "fallback_source" = false →
      pvHasKey cfg "reference_field" = false →
      pvHasKey cfg "receive_leg" = false →
      process_field_mapping (.dict cfg) row la ctx source config = .ok (.dict cfg)) := by
  constructor
  · exact pfm_non_dict
  · intro cfg sf row la ctx source config p pf hsf hprim hres hrow hfb hcalc hstat hdyn
      hsrc hfbs href hrecv
    have hstat' : (pvGet cfg "static_value").isSome = false := hstat
    have hdyn' : (pvGet cfg "dynamic_value").isSome = false := hdyn
    have hsrc' : (pvGet cfg "source_field").isSome = false := hsrc
    have hfbs' : (pvGet cfg "fallback_source").isSome = false := hfbs
    have href' : (pvGet cfg "reference_field").isSome = false := href
    have hrecv' : (pvGet cfg "receive_leg").isSome = false := hrecv
    have hcalc' : (pvGet cfg "calculation_type").isSome = false := hcalc
    have hfb' : (pvGet sf "fallback").isSome = false := hfb
    simp [process_field_mapping, pfmSfFallback, pfmTail, pvGetD, pvHasKey, exbind_ok,
      hsf, hprim, hres, hrow, hstat', hdyn', hsrc', hfbs', href', hrecv', hcalc', hfb']

/-- C10 witness: a bare scalar rule and the concrete empty-primary rule both come
back verbatim, via the theorem. -/
theorem c10_fallthrough_verbatim_witness :
    process_field_mapping (.int 7) c10Row ⟨Option.none, Option.none⟩ {} "banco" []
      = .ok (.int 7)
  ∧ process_field_mapping c10Cfg c10Row ⟨Option.none, Option.none⟩ {} "banco" []
      = .ok c10Cfg :=
  ⟨c10_fallthrough_verbatim.1 (.int 7) c10Row ⟨Option.none, Option.none⟩ {} "banco" [] rfl,
   c10_fallthrough_verbatim.2 [("source_fields", .dict [("primary", .str "fld")])]
     [("primary", .str "fld")] c10Row ⟨Option.none, Option.none⟩ {} "banco" []
     "fld" "fld" rfl rfl rfl rfl rfl rfl rfl rfl rfl rfl rfl rfl⟩

end CR2

namespace CR2

theorem dlaCheckLeg_eq (roles : PyVal) (tpl : String) (row : Record) (la : LegAssignments)
    (i : Nat) (fi : String) (rc pc : PyVal)
    (hf : pyFormatIdx tpl i = .ok fi)
    (hrc : pvIndex roles "receive" = .ok rc)
    (hpc : pvIndex roles "pay" = .ok pc) :
    dlaCheckLeg roles tpl row la i = .ok
      (if pvEqB (rowValPv row fi) rc then { la with receive_leg_source := some i }
       else if pvEqB (rowValPv row fi) pc then { la with pay_leg_source := some i }
       else la) := by
  rw [dlaCheckLeg, hf]
  simp only [exbind_ok]
  simp only [show (match rowGet row fi with
    | some s => PyVal.str s
    | Option.none => PyVal.none) = rowValPv row fi from rfl]
  rw [hrc]
  simp only [exbind_ok]
  by_cases h1 : pvEqB (rowValPv row fi) rc = true
  · rw [if_pos h1, if_pos h1]
  · rw [if_neg h1, if_neg h1]
    rw [hpc]
    simp only [exbind_ok]
    by_cases h2 : pvEqB (rowValPv row fi) pc = true
    · rw [if_pos h2, if_pos h2]
    · rw [if_neg h2, if_neg h2]

/-- C9: once the leg-assignment section of the configuration is well-formed (its
role-field template is a string that formats for both indices and both role codes
are present), `_determine_leg_assignments` never fails, and its result is exactly:
a role whose code matches neither leg is left absent (that canonical leg is later
omitted silently), and when both input legs carry the same role code the
assignment from input leg 1 overwrites the one from input leg 0. -/
theorem c9_leg_assignment (config : Config) (row : Record)
    (laD : List (String × PyVal)) (tpl f0 f1 : String) (rc pc : PyVal)
    (hla : pvGetD config "leg_assignment" (.dict []) = .dict laD)
    (htpl : pvGetD laD "role_field" (.str "legs[{idx}].leg_generator.rp") = .str tpl)
    (hf0 : pyFormatIdx tpl 0 = .ok f0)
    (hf1 : pyFormatIdx tpl 1 = .ok f1)
    (hrc : pvIndex (pvGetD laD "roles"
        (.dict [("receive", .str "A"), ("pay", .str "P")])) "receive" = .ok rc)
    (hpc : pvIndex (pvGetD laD "roles"
        (.dict [("receive", .str "A"), ("pay", .str "P")])) "pay" = .ok pc) :
    determine_leg_assignments config row = .ok
      (let v0 := rowValPv row f0
       let v1 := rowValPv row f1
       let la0 : LegAssignments :=
         if pvEqB v0 rc then
           { (⟨Option.none, Option.none⟩ : LegAssignments) with receive_leg_source := some 0 }
         else if pvEqB v0 pc then
           { (⟨Option.none, Option.none⟩ : LegAssignments) with pay_leg_source := some 0 }
         else ⟨Option.none, Option.none⟩
       if pvEqB v1 rc then { la0 with receive_leg_source := some 1 }
       else if pvEqB v1 pc then { la0 with pay_leg_source := some 1 }
       else la0) := by
  rw [determine_leg_assignments, hla]
  simp only [exbind_ok]
  rw [htpl]
  simp only []
  simp only [exbind_ok]
  rw [dlaCheckLeg_eq _ tpl row _ 0 f0 rc pc hf0 hrc hpc]
  simp only [exbind_ok]
  rw [dlaCheckLeg_eq _ tpl row _ 1 f1 rc pc hf1 hrc hpc]

/-- C9 witness: with the default configuration and a record where both input legs
claim the receive role `"A"`, resolution succeeds and input leg 1 silently wins the
receive slot while the pay slot stays empty. -/
theorem c9_leg_assignment_witness :
    determine_leg_assignments [] c9Row = .ok ⟨some 1, Option.none⟩ := by
  have h := c9_leg_assignment [] c9Row [] "legs[{idx}].leg_generator.rp"
    "legs[0].leg_generator.rp" "legs[1].leg_generator.rp" (.str "A") (.str "P")
    rfl rfl rfl rfl rfl rfl
  exact h.trans (by rfl)

end CR2

namespace CR2

/-- C5: the period-calculation policy: once the three period fields resolve, are
present and parse as integers `y`, `m`, `d`, any `y ≥ 25` yields the zero-coupon
result regardless of months and days — `"ATMATURITY"` for payment-frequency
calculations and `"TERM"` otherwise (`termOr`); `y = m = d = 0` yields the same;
and `y = 2, m = 0, d = 0` with no start/end dates configured yields `"2Y"`. -/
theorem c5_period_calculation (sf ct : PyVal) (row : Record) (ctx : Ctx)
    (ty tm td : PyVal) (fy fm fd ys ms ds : String) (y m d : Int)
    (hty : pvIndex sf "years" = .ok ty)
    (hfy : resolve_field_template ty Option.none { leg_idx := some (ctx.leg_idx.getD 0) } = .ok fy)
    (htm : pvIndex sf "months" = .ok tm)
    (hfm : resolve_field_template tm Option.none { leg_idx := some (ctx.leg_idx.getD 0) } = .ok fm)
    (htd : pvIndex sf "days" = .ok td)
    (hfd : resolve_field_template td Option.none { leg_idx := some (ctx.leg_idx.getD 0) } = .ok fd)
    (hys : rowIndex row fy = .ok ys) (hy : pyIntE ys = .ok y)
    (hms : rowIndex row fm = .ok ms) (hm : pyIntE ms = .ok m)
    (hds : rowIndex row fd = .ok ds) (hd : pyIntE ds = .ok d) :
    (y ≥ 25 → calculate_period_value sf ct row ctx = .ok (termOr ct))
  ∧ (y = 0 → m = 0 → d = 0 → calculate_period_value sf ct row ctx = .ok (termOr ct))
  ∧ (y = 2 → m = 0 → d = 0 → hasSpanFields sf = false →
      calculate_period_value sf ct row ctx = .ok "2Y")
  ∧ termOr (.str "payment_frequency") = "ATMATURITY"
  ∧ (∀ ct' : PyVal, pvEqB ct' (.str "payment_frequency") = false → termOr ct' = "TERM") := by
  have hbase : calculate_period_value sf ct row ctx =
      (if y ≥ 25 then .ok (termOr ct)
       else if y * 12 + m = 0 ∧ d = 0 then .ok (termOr ct)
       else if hasSpanFields sf then
         match spanCheck sf row (ctx.leg_idx.getD 0) with
         | some trade_months =>
           if y * 12 + m ≥ trade_months - 1 then .ok (termOr ct)
           else .ok (unitRender y m d ct)
         | Option.none => .ok (unitRender y m d ct)
       else .ok (unitRender y m d ct)) := by
    rw [calculate_period_value]
    rw [hty]
    simp only [exbind_ok]
    rw [hfy]
    simp only [exbind_ok]
    rw [htm]
    simp only [exbind_ok]
    rw [hfm]
    simp only [exbind_ok]
    rw [htd]
    simp only [exbind_ok]
    rw [hfd]
    simp only [exbind_ok]
    rw [hys]
    simp only [exbind_ok]
    rw [hy]
    simp only [exbind_ok]
    rw [hms]
    simp only [exbind_ok]
    rw [hm]
    simp only [exbind_ok]
    rw [hds]
    simp only [exbind_ok]
    rw [hd]
    simp only [exbind_ok]
  refine ⟨?_, ?_, ?_, rfl, ?_⟩
  · intro h25
    rw [hbase, if_pos h25]
  · intro hy0 hm0 hd0
    subst hy0; subst hm0; subst hd0
    rw [hbase]
    norm_num
  · intro hy2 hm0 hd0 hspan
    subst hy2; subst hm0; subst hd0
    rw [hbase]
    rw [if_neg (by norm_num), if_neg (by norm_num), if_neg (by rw [hspan]; exact Bool.false_ne_true)]
    rw [show unitRender 2 0 0 ct = "2Y" from rfl]
  · intro ct' hct
    rw [termOr, if_neg (by rw [hct]; exact Bool.false_ne_true)]

/-- C5 witness: the theorem instantiated at the concrete record with years=30,
months=0, days=0 for a payment-frequency calculation. -/
theorem c5_period_calculation_witness :
    calculate_period_value c5Sf (.str "payment_frequency") c5Row {} = .ok "ATMATURITY" := by
  have h := (c5_period_calculation c5Sf (.str "payment_frequency") c5Row {}
    (.str "agnos") (.str "meses") (.str "dias") "agnos" "meses" "dias"
    "30" "0" "0" 30 0 0
    rfl rfl rfl rfl rfl rfl rfl rfl rfl rfl rfl rfl).1 (by norm_num)
  exact h.trans (by rfl)

end CR2

namespace CR2

/-- C4 counterexample to the claim as stated: a rule carrying exactly the two
role literals (`receive_leg`/`pay_leg`) is intercepted by the nested-object branch
and resolves to the whole map of both values — not to one of the two literals —
even on a leg whose context marks it as the canonical receive leg. -/
theorem c4_counterexample :
    process_field_mapping c4Cfg [] ⟨Option.none, Option.none⟩ { is_receive := some true }
      "banco" [] = .ok c4Cfg
  ∧ (Except.ok c4Cfg : Except String PyVal) ≠ .ok (.str "CLP")
  ∧ (Except.ok c4Cfg : Except String PyVal) ≠ .ok (.str "USD") := by
  refine ⟨rfl, ?_, ?_⟩ <;> (intro h; simp [c4Cfg] at h)

/-- C4 (amended): a rule whose dict carries `receive_leg` and no other
branch-selecting key is captured by the nested-object branch and resolves to the
map of both configured values (each sub-value, being a scalar, is returned
verbatim); the role-based selection branch executes only when the nested-object
guard is defeated — e.g. when the rule also carries a `source_fields` key whose
value makes branch 4 fall through — and then it returns the `receive_leg` value
exactly when the context marks the current leg as the canonical receive leg, and
the `pay_leg` value otherwise. -/
theorem c4_leg_role_rule :
    (∀ (cfg : List (String × PyVal)) (row : Record) (la : LegAssignments) (ctx : Ctx)
      (source : String) (config : Config),
      pvHasKey cfg "receive_leg" = true →
      pvHasKey cfg "static_value" = false →
      pvHasKey cfg "dynamic_value" = false →
      pvHasKey cfg "source_field" = false →
      pvHasKey cfg "source_fields" = false →
      pvHasKey cfg "fallback_source" = false →
      pvHasKey cfg "reference_field" = false →
      (∀ kv ∈ cfg, kv.2.isDict = false) →
      process_field_mapping (.dict cfg) row la ctx source config = .ok (.dict cfg))
  ∧ (∀ (cfg : List (String × PyVal)) (sfs : PyVal) (row : Record) (la : LegAssignments)
      (ctx : Ctx) (source : String) (config : Config),
      pvGet cfg "source_fields" = some sfs → sfs.isDict = false →
      pvHasKey cfg "calculation_type" = false →
      pvHasKey cfg "static_value" = false →
      pvHasKey cfg "dynamic_value" = false →
      pvHasKey cfg "source_field" = false →
      pvHasKey cfg "fallback_source" = false →
      pvHasKey cfg "reference_field" = false →
      pvHasKey cfg "receive_leg" = true →
      process_field_mapping (.dict cfg) row la ctx source config
        = .ok (if ctx.is_receive.getD false then pvGetD cfg "receive_leg" .none
               else pvGetD cfg "pay_leg" .none)) := by
  constructor
  · intro cfg row la ctx source config hrecv hstat hdyn hsrc hsfs hfbs href hsc
    have hstat' : (pvGet cfg "static_value").isSome = false := hstat
    have hdyn' : (pvGet cfg "dynamic_value").isSome = false := hdyn
    have hsrc' : (pvGet cfg "source_field").isSome = false := hsrc
    have hsfs' : (pvGet cfg "source_fields").isSome = false := hsfs
    have hfbs' : (pvGet cfg "fallback_source").isSome = false := hfbs
    have href' : (pvGet cfg "reference_field").isSome = false := href
    simp [process_field_mapping, pfmTail, pvHasKey, pvGetD,
      hstat', hdyn', hsrc', hsfs', hfbs', href',
      process_entries_scalar cfg row la ctx source config hsc]
  · intro cfg sfs row la ctx source config hsf hdict hcalc hstat hdyn hsrc hfbs href hrecv
    have hstat' : (pvGet cfg "static_value").isSome = false := hstat
    have hdyn' : (pvGet cfg "dynamic_value").isSome = false := hdyn
    have hsrc' : (pvGet cfg "source_field").isSome = false := hsrc
    have hfbs' : (pvGet cfg "fallback_source").isSome = false := hfbs
    have href' : (pvGet cfg "reference_field").isSome = false := href
    have hcalc' : (pvGet cfg "calculation_type").isSome = false := hcalc
    have hrecv' : (pvGet cfg "receive_leg").isSome = true := hrecv
    cases sfs with
    | dict d => rw [PyVal.isDict] at hdict; exact absurd hdict (by simp)
    | str s =>
      simp [process_field_mapping, pfmTail, pvHasKey, pvGetD, hsf,
        hstat', hdyn', hsrc', hfbs', href', hcalc', hrecv']
      split <;> rfl
    | int n =>
      simp [process_field_mapping, pfmTail, pvHasKey, pvGetD, hsf,
        hstat', hdyn', hsrc', hfbs', href', hcalc', hrecv']
      split <;> rfl
    | float r =>
      simp [process_field_mapping, pfmTail, pvHasKey, pvGetD, hsf,
        hstat', hdyn', hsrc', hfbs', href', hcalc', hrecv']
      split <;> rfl
    | bool b =>
      simp [process_field_mapping, pfmTail, pvHasKey, pvGetD, hsf,
        hstat', hdyn', hsrc', hfbs', href', hcalc', hrecv']
      split <;> rfl
    | none =>
      simp [process_field_mapping, pfmTail, pvHasKey, pvGetD, hsf,
        hstat', hdyn', hsrc', hfbs', href', hcalc', hrecv']
      split <;> rfl
    | list xs =>
      simp [process_field_mapping, pfmTail, pvHasKey, pvGetD, hsf,
        hstat', hdyn', hsrc', hfbs', href', hcalc', hrecv']
      split <;> rfl

/-- C4 witness: the plain role rule comes back as the whole map, and the variant
with a fall-through `source_fields` key selects the receive literal on a receive
leg — both via the theorem. -/
theorem c4_leg_role_rule_witness :
    process_field_mapping c4Cfg [] ⟨Option.none, Option.none⟩ { is_receive := some true }
      "banco" [] = .ok c4Cfg
  ∧ process_field_mapping c4CfgReachable [] ⟨Option.none, Option.none⟩
      { is_receive := some true } "banco" [] = .ok (.str "CLP") := by
  constructor
  · exact c4_leg_role_rule.1 [("receive_leg", .str "CLP"), ("pay_leg", .str "USD")]
      [] ⟨Option.none, Option.none⟩ { is_receive := some true } "banco" []
      rfl rfl rfl rfl rfl rfl rfl (by decide)
  · have h := c4_leg_role_rule.2
      [("source_fields", .none), ("receive_leg", .str "CLP"), ("pay_leg", .str "USD")]
      .none [] ⟨Option.none, Option.none⟩ { is_receive := some true } "banco" []
      rfl rfl rfl rfl rfl rfl rfl rfl rfl
    exact h.trans (by rfl)

end CR2

namespace CR2

/-- C1 counterexample to the claim as stated: on a record whose only role marker
assigns the pay role (no receive leg at all), the produced legs list holds the
`Pata-Pasiva` leg at index 0 — the claim's fixed order `[receive, pay]` with the
receive leg first does not hold positionally, because an absent receive leg is
skipped rather than emitted. -/
theorem c1_counterexample :
    determine_leg_assignments [] c1Row = .ok ⟨Option.none, some 0⟩
  ∧ transform_single_trade [] "banco" c1Row
      = some { header := [], legs := [pataPasivaSeed] }
  ∧ legField pataPasivaSeed "legId" = some (.str "Pata-Pasiva")
  ∧ legField pataPasivaSeed "legId" ≠ some (.str "Pata-Activa") := by
  refine ⟨rfl, rfl, rfl, ?_⟩
  intro h
  injection h with h1
  injection h1 with h2
  exact absurd h2 (by decide)

/-- C1 (amended): when both roles are assigned a source leg, the trade's legs list
is exactly `[receive leg, pay leg]` in that order; each leg starts from its
hardcoded seed (`legId`, `payerPartyReference`, `receiverPartyReference`) and is
overlaid with the configured leg fields, so as long as the configured fields do not
reuse the three seed keys, the receive leg keeps `legId = "Pata-Activa"` with the
bank as receiver, and the pay leg keeps `legId = "Pata-Pasiva"` with the bank as
payer. A missing role simply omits that leg (see the counterexample), so the order
is only guaranteed relative, not positional. -/
theorem c1_leg_order (config : Config) (source : String) (row : Record)
    (la : LegAssignments) (hdr addR addP : List (String × PyVal)) (i j : Nat)
    (hla : determine_leg_assignments config row = .ok la)
    (hri : la.receive_leg_source = some i)
    (hpj : la.pay_leg_source = some j)
    (hh : build_header config source row la = .ok hdr)
    (hbR : build_single_leg config source row i true la = .ok addR)
    (hbP : build_single_leg config source row j false la = .ok addP)
    (hR : ∀ kv ∈ addR, kv.1 ≠ "legId" ∧ kv.1 ≠ "payerPartyReference"
            ∧ kv.1 ≠ "receiverPartyReference")
    (hP : ∀ kv ∈ addP, kv.1 ≠ "legId" ∧ kv.1 ≠ "payerPartyReference"
            ∧ kv.1 ≠ "receiverPartyReference") :
    transform_single_trade config source row
      = some { header := hdr,
               legs := [dictUpdatePv pataActivaSeed addR, dictUpdatePv pataPasivaSeed addP] }
  ∧ legField (dictUpdatePv pataActivaSeed addR) "legId" = some (.str "Pata-Activa")
  ∧ legField (dictUpdatePv pataActivaSeed addR) "payerPartyReference"
      = some (.str "OurCounterparty")
  ∧ legField (dictUpdatePv pataActivaSeed addR) "receiverPartyReference"
      = some (.str "ThisBank")
  ∧ legField (dictUpdatePv pataPasivaSeed addP) "legId" = some (.str "Pata-Pasiva")
  ∧ legField (dictUpdatePv pataPasivaSeed addP) "payerPartyReference"
      = some (.str "ThisBank")
  ∧ legField (dictUpdatePv pataPasivaSeed addP) "receiverPartyReference"
      = some (.str "OurCounterparty") := by
  have hbl : build_legs config source row la
      = .ok [dictUpdatePv pataActivaSeed addR, dictUpdatePv pataPasivaSeed addP] := by
    rw [build_legs, hri]
    simp only []
    rw [hbR]
    simp only [exbind_ok]
    rw [hpj]
    simp only []
    rw [hbP]
    simp only [exbind_ok]
    rfl
  refine ⟨?_, ?_, ?_, ?_, ?_, ?_, ?_⟩
  · rw [transform_single_trade, hla]
    simp only [exbind_ok]
    rw [hh]
    simp only [exbind_ok]
    rw [hbl]
    rfl
  · rw [legField, pvGet_dictUpdatePv addR pataActivaSeed "legId"
      (fun kv hkv => (hR kv hkv).1)]
    rfl
  · rw [legField, pvGet_dictUpdatePv addR pataActivaSeed "payerPartyReference"
      (fun kv hkv => (hR kv hkv).2.1)]
    rfl
  · rw [legField, pvGet_dictUpdatePv addR pataActivaSeed "receiverPartyReference"
      (fun kv hkv => (hR kv hkv).2.2)]
    rfl
  · rw [legField, pvGet_dictUpdatePv addP pataPasivaSeed "legId"
      (fun kv hkv => (hP kv hkv).1)]
    rfl
  · rw [legField, pvGet_dictUpdatePv addP pataPasivaSeed "payerPartyReference"
      (fun kv hkv => (hP kv hkv).2.1)]
    rfl
  · rw [legField, pvGet_dictUpdatePv addP pataPasivaSeed "receiverPartyReference"
      (fun kv hkv => (hP kv hkv).2.2)]
    rfl

/-- C1 witness: on a record assigning input leg 0 the receive role and input leg 1
the pay role under the empty configuration, the theorem yields exactly the two
seeds in receive-first order. -/
theorem c1_leg_order_witness :
    transform_single_trade [] "banco" bothRolesRow
      = some { header := [], legs := [pataActivaSeed, pataPasivaSeed] }
  ∧ legField pataActivaSeed "legId" = some (.str "Pata-Activa")
  ∧ legField pataPasivaSeed "legId" = some (.str "Pata-Pasiva") := by
  have h := c1_leg_order [] "banco" bothRolesRow ⟨some 0, some 1⟩ [] [] [] 0 1
    rfl rfl rfl rfl rfl rfl (by simp) (by simp)
  exact ⟨h.1, h.2.1, h.2.2.2.2.1⟩

end CR2
